import Mathlib

/-!
Verification of the Cashu mint ledger transaction engine (`cashu/mint/ledger.py`)
against its natural-language specification.

The Python source is shallowly embedded: every operation becomes an executable
Lean function over an explicit ledger state.  Database writes are recorded as a
list of transactions (each transaction is the list of writes performed on one
database connection), so that atomicity properties are statements about the
shape of that list.  Collaborators that live outside the embedded files
(output/input verification, the Lightning backend, bolt11 decoding, the hash
functions) are fields of an `Env` structure; theorems quantify over all
environments.
-/

/-- State of a mint quote (`MintQuoteState` in `core/base.py`). -/
inductive MintQuoteState where
  | unpaid
  | paid
  | issued
deriving DecidableEq, Repr

/-- State of a melt quote.  Modelled from the spec: `core/base.py` is not under
`src/`; §3 of the spec lists the states UNPAID, PENDING, PAID, FAILED. -/
inductive MeltQuoteState where
  | unpaid
  | pending
  | paid
  | failed
deriving DecidableEq, Repr

/-- A blinded message (output) submitted by a client. -/
structure BlindedMessage where
  id : String
  amount : Int
  B_ : String
deriving DecidableEq, Repr

/-- A blinded signature (promise) issued by the mint; the DLEQ fields `e`, `s`
are inlined. -/
structure BlindedSignature where
  id : String
  amount : Int
  C_ : String
  e : String
  s : String
deriving DecidableEq, Repr

/-- An ecash proof submitted as transaction input. -/
structure Proof where
  id : String
  amount : Int
  secret : String
  witness : Option String := none
deriving DecidableEq, Repr

/-- A mint quote record (`MintQuote` in `core/base.py`, fields as used by
`ledger.py`). -/
structure MintQuote where
  quote : String
  method : String
  request : String
  checking_id : String
  unit : String
  amount : Int
  issued : Bool
  paid : Bool
  state : MintQuoteState
  created_time : Nat := 0
  paid_time : Option Nat := none
  expiry : Option Nat := none
deriving DecidableEq, Repr

/-- A melt quote record (`MeltQuote` in `core/base.py`, fields as used by
`ledger.py`). -/
structure MeltQuote where
  quote : String
  method : String
  request : String
  checking_id : String
  unit : String
  amount : Int
  fee_reserve : Int
  paid : Bool
  state : MeltQuoteState
  fee_paid : Int := 0
  payment_preimage : Option String := none
  created_time : Nat := 0
  paid_time : Option Nat := none
  expiry : Option Nat := none
  change : List BlindedSignature := []
deriving DecidableEq, Repr

/-- A stored promise row of the `promises` table, keyed by `b_`. -/
structure StoredPromise where
  amount : Int
  id : String
  b_ : String
  c_ : String
  e : String
  s : String
deriving DecidableEq, Repr

/-- A row of the `proofs_used` (spent proof) table, keyed by `y`. -/
structure SpentEntry where
  y : String
  amount : Int
  id : String
  quote_id : Option String
deriving DecidableEq, Repr

/-- A row of the `proofs_pending` table, keyed by `y`. -/
structure PendingEntry where
  y : String
  quote_id : Option String
deriving DecidableEq, Repr

/-- The semantic database: quotes, promises, spent and pending proofs. -/
structure DB where
  mint_quotes : List MintQuote
  melt_quotes : List MeltQuote
  promises : List StoredPromise
  proofs_used : List SpentEntry
  proofs_pending : List PendingEntry
deriving DecidableEq, Repr

/-- A single database write. -/
inductive DbOp where
  | updateMintQuote (q : MintQuote)
  | updateMeltQuote (q : MeltQuote)
  | storePromise (p : StoredPromise)
  | invalidateProof (e : SpentEntry)
  | setPending (e : PendingEntry)
  | unsetPending (y : String)
deriving DecidableEq, Repr

/-- Apply one write to the database.  Updates replace the rows with the same
primary key, mirroring the SQL `UPDATE ... WHERE quote = ?` of the crud layer. -/
def applyOp (db : DB) (op : DbOp) : DB :=
  match op with
  | .updateMintQuote q =>
      { db with mint_quotes := db.mint_quotes.map (fun r => if r.quote = q.quote then q else r) }
  | .updateMeltQuote q =>
      { db with melt_quotes := db.melt_quotes.map (fun r => if r.quote = q.quote then q else r) }
  | .storePromise p => { db with promises := db.promises ++ [p] }
  | .invalidateProof e => { db with proofs_used := db.proofs_used ++ [e] }
  | .setPending e => { db with proofs_pending := db.proofs_pending ++ [e] }
  | .unsetPending y =>
      { db with proofs_pending := db.proofs_pending.filter (fun e => e.y != y) }

/-- Apply a whole transaction (list of writes) to the database. -/
def applyTxn (db : DB) (ops : List DbOp) : DB := ops.foldl applyOp db

/-- Apply a list of transactions in order. -/
def applyTxns (db : DB) (txns : List (List DbOp)) : DB := txns.foldl applyTxn db

/-- Errors raised by the ledger (`core/errors.py` plus Python runtime errors). -/
inductive Err where
  | transaction (msg : String)
  | quoteNotPaid
  | lightning (msg : String)
  | notAllowed (msg : String)
  | cashu (msg : String)
  | generic (msg : String)
  | proofsPending
  | keyError
  | attributeError
deriving DecidableEq, Repr

/-- The mutable state threaded through an operation: the database, the list of
committed transactions, the `pay_invoice` backend calls made so far (each
recorded with the melt-quote state at call time), and the keys present in the
ledger's per-quote `locks` map. -/
structure St where
  db : DB
  txns : List (List DbOp)
  calls : List MeltQuoteState
  locks : List String
deriving DecidableEq, Repr

/-- Commit one database transaction: apply its writes and record it. -/
def runTxn (s : St) (ops : List DbOp) : St :=
  { s with db := applyTxn s.db ops, txns := s.txns ++ [ops] }

/-- Result of one ledger step: a value or an error, together with the state
reached (errors keep the state in which they were raised). -/
abbrev MRes (α : Type) := Except Err α × St

/-- Sequencing of ledger steps: an error short-circuits and keeps its state. -/
def andThen {α β : Type} (r : MRes α) (f : α → St → MRes β) : MRes β :=
  match r with
  | (.ok a, s) => f a s
  | (.error e, s) => (.error e, s)

/-- Status of a Lightning invoice or payment as reported by the backend. -/
structure PaymentStatus where
  paid : Bool
  fee : Option Int := none
  preimage : Option String := none
deriving DecidableEq, Repr

/-- Backend response to `pay_invoice`. -/
structure PaymentResponse where
  ok : Bool
  fee : Option Int := none
  preimage : Option String := none
  error_message : Option String := none
deriving DecidableEq, Repr

/-- The fields of a decoded bolt11 invoice consumed by the ledger. -/
structure Bolt11Invoice where
  amount_msat : Option Int
  date : Nat := 0
  expiry : Option Nat := none
deriving DecidableEq, Repr

/-- A keyset as used by the ledger: id, unit, active flag, input fee and the
per-amount private keys. -/
structure MintKeyset where
  id : String
  unit : String
  active : Bool
  input_fee_ppk : Int := 0
  private_keys : List (Int × String)
deriving DecidableEq, Repr

/-- The collaborators of the ledger that live outside the embedded source
files: verification mixin predicates, crypto, bolt11 decoding, the Lightning
backend, the clock and the relevant settings.  Theorems quantify over all
environments. -/
structure Env where
  now : Nat
  hash_to_curve : String → String
  parsePoint : String → Option String
  step2_bob : String → String → String × String × String
  verify_outputs : List BlindedMessage → Bool
  verify_outputs_skip : List BlindedMessage → Bool
  verify_inputs_and_outputs : List Proof → Bool
  verify_equation_balanced : List Proof → List BlindedMessage → Bool
  verify_io_for_amount : List Proof → List BlindedMessage → Bool
  unit_method_ok : String → String → Bool
  get_fees_for_proofs : List Proof → Int
  decode : String → Option Bolt11Invoice
  invoice_status : String → PaymentStatus
  payment_status : String → PaymentStatus
  pay_invoice : MeltQuote → Int → PaymentResponse
  max_peg_out : Int := 0

/-- The in-memory keyset table of the `Ledger` singleton. -/
structure LedgerK where
  keysets : List (String × MintKeyset)
deriving Repr

/-- Keyset lookup (`self.keysets[id]`). -/
def lookupKeyset (L : LedgerK) (id : String) : Option MintKeyset :=
  (L.keysets.find? (fun kv => kv.fst = id)).map (·.snd)

/-- Mint-quote lookup by quote id (`crud.get_mint_quote(quote_id=...)`). -/
def lookupMintQuote (db : DB) (quote_id : String) : Option MintQuote :=
  db.mint_quotes.find? (fun q => q.quote = quote_id)

/-- Mint-quote lookup by payment request (`crud.get_mint_quote(request=...)`). -/
def lookupMintQuoteByRequest (db : DB) (request : String) : Option MintQuote :=
  db.mint_quotes.find? (fun q => q.request = request)

/-- Melt-quote lookup by quote id (`crud.get_melt_quote(quote_id=...)`). -/
def lookupMeltQuote (db : DB) (quote_id : String) : Option MeltQuote :=
  db.melt_quotes.find? (fun q => q.quote = quote_id)

/-- Promise lookup by blinded point (`crud.get_promise(b_=...)`). -/
def getPromise (db : DB) (b_ : String) : Option StoredPromise :=
  db.promises.find? (fun p => p.b_ = b_)

/-- Sum of the amounts of a list of proofs (`core.helpers.sum_proofs`). -/
def sum_proofs (proofs : List Proof) : Int :=
  (proofs.map (·.amount)).sum

/-- Sum of the amounts of a list of outputs. -/
def sumOutputs (outputs : List BlindedMessage) : Int :=
  (outputs.map (·.amount)).sum

/-- The `Y` keys of a list of proofs. -/
def proofYs (env : Env) (proofs : List Proof) : List String :=
  proofs.map (fun p => env.hash_to_curve p.secret)

/-- The `Y` keys currently reserved in the pending-proof table. -/
def pendingYs (db : DB) : List String :=
  db.proofs_pending.map (·.y)

/-- Whether a list of strings contains a duplicate. -/
def hasDup : List String → Bool
  | [] => false
  | x :: xs => xs.contains x || hasDup xs

/-- Binary decomposition of a natural number, highest bit first (`13 ↦ [8, 4, 1]`).
The fuel argument bounds the recursion depth; `fuel = n` always suffices. -/
def natBitsAux : Nat → Nat → List Nat
  | 0, _ => []
  | fuel + 1, n =>
      if n = 0 then []
      else (natBitsAux fuel (n / 2)).map (· * 2) ++ (if n % 2 = 1 then [1] else [])

/-- Modelled from the spec: `amount_split` (`cashu/core/split.py` is not under
`src/`).  Spec §4.5: given a positive integer `A`, return the ordered list of
powers of two whose sum is `A` and which corresponds to the bits of `A`,
highest first (example: `13 → [8, 4, 1]`).  The spec defines the function for
positive integers only; a non-positive argument yields the empty list. -/
def amount_split (a : Int) : List Int :=
  (natBitsAux a.toNat a.toNat).map Int.ofNat

/-- Insert into a descending-sorted list, keeping it descending. -/
def insertDesc (a : Int) : List Int → List Int
  | [] => [a]
  | b :: bs => if b < a then a :: b :: bs else b :: insertDesc a bs

/-- The descending sort used in `_generate_change_promises`
(`sorted(return_amounts, reverse=True)`), as a structural insertion sort.  The
source sorts the binary decomposition of the overpaid fee, whose values are
pairwise distinct, so any descending sort agrees with Python's. -/
def sortDesc (l : List Int) : List Int :=
  l.foldr insertDesc []

/-- One iteration of the signing loop of `Ledger._generate_promises`
(`ledger.py` lines 1162-1175): resolve the keyset (`keyset or
self.keysets[output.id]`, a `KeyError` if absent), run the keyset checks, look
up the per-amount private key (a `KeyError` if absent) and sign with
`step2_bob`.  Returns the updated `keyset` variable and the promise tuple. -/
def generatePromiseStep (env : Env) (L : LedgerK) (o : BlindedMessage)
    (keyset : Option MintKeyset) :
    Except Err (MintKeyset × StoredPromise) :=
  match env.parsePoint o.B_ with
  | none => .error (.generic "invalid point")
  | some pB =>
    match keyset.orElse (fun _ => lookupKeyset L o.id) with
    | none => .error .keyError
    | some ks =>
      if (lookupKeyset L o.id).isNone then .error (.transaction "keyset not found")
      else if o.id ≠ ks.id then .error (.transaction "keyset id does not match output id")
      else if ks.active = false then .error (.transaction "keyset is not active")
      else
        match (ks.private_keys.find? (fun kv => kv.fst = o.amount)).map (·.snd) with
        | none => .error .keyError
        | some k =>
          let r := env.step2_bob pB k
          .ok (ks, { amount := o.amount, id := o.id, b_ := pB,
                     c_ := r.fst, e := r.snd.fst, s := r.snd.snd })

/-- The blinded signature returned to the client for a stored promise. -/
def promiseToSignature (p : StoredPromise) : BlindedSignature :=
  { id := p.id, amount := p.amount, C_ := p.c_, e := p.e, s := p.s }

/-- The signing loop of `Ledger._generate_promises` (`ledger.py` lines
1159-1175), threading the `keyset` local variable through the iterations. -/
def generatePromisesGo (env : Env) (L : LedgerK) : List BlindedMessage →
    Option MintKeyset → List StoredPromise → Except Err (List StoredPromise)
  | [], _, acc => .ok acc
  | o :: rest, ks, acc =>
    match generatePromiseStep env L o ks with
    | .error e => .error e
    | .ok r => generatePromisesGo env L rest (some r.fst) (acc ++ [r.snd])

/-- `Ledger._generate_promises` (`ledger.py` lines 1138-1202) as a pure
computation: the signing loop followed by the `store_promise` writes, which the
source performs on a single database connection.  Returns the signatures and
the list of writes of that connection; the caller commits them as one
transaction (when called without an ambient connection) or merges them into the
ambient one. -/
def generatePromisesOps (env : Env) (L : LedgerK) (outputs : List BlindedMessage)
    (keyset : Option MintKeyset) :
    Except Err (List BlindedSignature × List DbOp) :=
  match generatePromisesGo env L outputs keyset [] with
  | .error e => .error e
  | .ok ps => .ok (ps.map promiseToSignature, ps.map (fun p => DbOp.storePromise p))

/-- `Ledger._generate_promises` called without an ambient connection: the
stores commit as one transaction of their own. -/
def generate_promises (env : Env) (L : LedgerK) (outputs : List BlindedMessage)
    (keyset : Option MintKeyset) (s : St) : MRes (List BlindedSignature) :=
  match generatePromisesOps env L outputs keyset with
  | .error e => (.error e, s)
  | .ok r => (.ok r.fst, runTxn s r.snd)

/-- `Ledger.get_mint_quote` (`ledger.py` lines 447-480): load the quote and, if
it is unpaid, poll the backend; on a paid invoice stamp `paid`/`paid_time` and
persist the update in a transaction of its own. -/
def get_mint_quote (env : Env) (quote_id : String) (s : St) : MRes MintQuote :=
  match lookupMintQuote s.db quote_id with
  | none => (.error (.generic "quote not found"), s)
  | some q =>
    if env.unit_method_ok q.unit q.method = false then
      (.error (.transaction "unit or method not supported"), s)
    else if q.state = MintQuoteState.unpaid then
      if q.checking_id = "" then (.error (.cashu "quote has no checking id"), s)
      else if (env.invoice_status q.checking_id).paid then
        let q2 := { q with paid := true, state := MintQuoteState.paid,
                           paid_time := some env.now }
        (.ok q2, runTxn s [.updateMintQuote q2])
      else (.ok q, s)
    else (.ok q, s)

/-- Insert the per-quote lock entry
(`self.locks[quote_id] = self.locks.get(quote_id) or asyncio.Lock()`). -/
def insertLock (quote_id : String) (locks : List String) : List String :=
  if locks.contains quote_id then locks else quote_id :: locks

/-- Remove the per-quote lock entry (`del self.locks[quote_id]`). -/
def removeLock (quote_id : String) (locks : List String) : List String :=
  locks.filter (fun l => l != quote_id)

/-- The check sequence of `Ledger.mint` on the loaded quote (`ledger.py` lines
516-531), in source order: the legacy `paid`/`issued` flag checks, the state
checks, the unit and amount checks, and the expiry check, which the source
writes as `quote.expiry and quote.expiry > int(time.time())`.  Returns the
first error raised, if any. -/
def mintChecks (env : Env) (ks0 : MintKeyset) (sum_amount_outputs : Int)
    (q : MintQuote) : Option Err :=
  if q.paid = false then some .quoteNotPaid
  else if q.issued then some (.transaction "quote already issued")
  else if q.state ≠ MintQuoteState.paid then some .quoteNotPaid
  else if q.state = MintQuoteState.issued then some (.transaction "quote already issued")
  else if q.unit ≠ ks0.unit then some (.transaction "quote unit does not match output unit")
  else if q.amount ≠ sum_amount_outputs then
    some (.transaction "amount to mint does not match quote amount")
  else if (match q.expiry with
           | some e => decide (env.now < e)
           | none => false) then
    some (.transaction "quote expired")
  else none

/-- `Ledger.mint` (`ledger.py` lines 482-545): verify the outputs, create the
per-quote lock entry, load the quote, run the paid/issued/unit/amount/expiry
checks, persist the quote as issued, generate and store the promises, and
delete the lock entry on the successful path only. -/
def mint (env : Env) (L : LedgerK) (outputs : List BlindedMessage)
    (quote_id : String) (s : St) : MRes (List BlindedSignature) :=
  if env.verify_outputs outputs = false then
    (.error (.transaction "outputs did not verify"), s)
  else
    match outputs with
    | [] => (.error .keyError, s)
    | o0 :: _ =>
      match lookupKeyset L o0.id with
      | none => (.error .keyError, s)
      | some ks0 =>
        let sum_amount_outputs := sumOutputs outputs
        let s := { s with locks := insertLock quote_id s.locks }
        andThen (get_mint_quote env quote_id s) (fun q s =>
          match mintChecks env ks0 sum_amount_outputs q with
          | some e => (.error e, s)
          | none =>
            let q2 := { q with issued := true, state := MintQuoteState.issued }
            let s := runTxn s [.updateMintQuote q2]
            andThen (generate_promises env L outputs none s) (fun promises s =>
              (.ok promises, { s with locks := removeLock quote_id s.locks })))

/-- Modelled from the spec: `DbWriteHelper._set_proofs_pending`
(`cashu/mint/db/write.py` is not under `src/`).  Spec §4.4.2 step 3: insert
every `Y` into the pending table bound to the quote id; if any insert
conflicts (with an existing reservation or within the batch), abort with
*ProofsPending* and leave no entry behind. -/
def setProofsPending (env : Env) (proofs : List Proof) (qid : Option String)
    (s : St) : MRes Unit :=
  let ys := proofYs env proofs
  if hasDup ys || ys.any (fun y => (pendingYs s.db).contains y) then
    (.error .proofsPending, s)
  else
    (.ok (), runTxn s (ys.map (fun y => DbOp.setPending { y := y, quote_id := qid })))

/-- Modelled from the spec: `DbWriteHelper._unset_proofs_pending`
(`cashu/mint/db/write.py` is not under `src/`).  Spec §4.4.2 step 8: remove
the pending entries of the given proofs. -/
def unsetProofsPending (env : Env) (proofs : List Proof) (s : St) : St :=
  runTxn s ((proofYs env proofs).map (fun y => DbOp.unsetPending y))

/-- The spent-proof writes of `Ledger._invalidate_proofs` (`ledger.py` lines
289-312), performed on a single database connection. -/
def invalidateProofsOps (env : Env) (proofs : List Proof) (qid : Option String) :
    List DbOp :=
  proofs.map (fun p =>
    DbOp.invalidateProof
      { y := env.hash_to_curve p.secret, amount := p.amount, id := p.id, quote_id := qid })

/-- Modelled from the spec: `LedgerVerification._verify_no_duplicate_outputs`
(`cashu/mint/verification.py` is not under `src/`).  Spec §4.3: outputs must
have unique `B_` values. -/
def verifyNoDuplicateOutputs (outputs : List BlindedMessage) : Bool :=
  !(hasDup (outputs.map (·.B_)))

/-- `Ledger._generate_change_promises` (`ledger.py` lines 314-371): compute the
overpaid fee, return no change when it is zero or no outputs were supplied,
otherwise split it, truncate the outputs to `min(len(outputs),
len(return_amounts))`, imprint the amounts sorted in descending order, check
for duplicates and sign. -/
def generate_change_promises (env : Env) (L : LedgerK) (fee_provided fee_paid : Int)
    (outputs : Option (List BlindedMessage)) (keyset : Option MintKeyset)
    (s : St) : MRes (List BlindedSignature) :=
  let overpaid_fee := fee_provided - fee_paid
  if overpaid_fee = 0 ∨ outputs = none then (.ok [], s)
  else
    let os := outputs.getD []
    let return_amounts := amount_split overpaid_fee
    let n_return_outputs := min os.length return_amounts.length
    let os2 := os.take n_return_outputs
    let return_amounts_sorted := sortDesc return_amounts
    let imprinted := os2.zipWith (fun o a => { o with amount := a }) return_amounts_sorted
    if verifyNoDuplicateOutputs imprinted = false then
      (.error (.transaction "duplicate promises."), s)
    else generate_promises env L imprinted keyset s

/-- `Ledger.get_melt_quote` (`ledger.py` lines 765-815): load the quote; when
it is not paid and no mint quote shares its request, poll the backend and on a
paid payment stamp `paid`, `fee_paid`, `payment_preimage` and `paid_time` and
persist the update. -/
def get_melt_quote (env : Env) (quote_id : String) (s : St) : MRes MeltQuote :=
  match lookupMeltQuote s.db quote_id with
  | none => (.error (.generic "quote not found"), s)
  | some q =>
    if env.unit_method_ok q.unit q.method = false then
      (.error (.transaction "unit or method not supported"), s)
    else if q.paid = false ∧ lookupMintQuoteByRequest s.db q.request = none then
      if (env.payment_status q.checking_id).paid then
        let st := env.payment_status q.checking_id
        let q2 := { q with paid := true, state := MeltQuoteState.paid,
                           fee_paid := (match st.fee with
                                        | some f => f
                                        | none => q.fee_paid),
                           payment_preimage := (match st.preimage with
                                                | some p =>
                                                  if p ≠ "" then some p else q.payment_preimage
                                                | none => q.payment_preimage),
                           paid_time := some env.now }
        (.ok q2, runTxn s [.updateMeltQuote q2])
      else (.ok q, s)
    else (.ok q, s)

/-- The check sequence of `Ledger.melt_mint_settle_internally` (`ledger.py`
lines 844-870) on the melt quote, the matching mint quote and the decoded
invoice, in source order.  Returns the first error raised, if any. -/
def settleChecks (env : Env) (mq : MeltQuote) (m : MintQuote) : Option Err :=
  if mq.paid then some (.transaction "melt quote already paid")
  else if mq.state ≠ MeltQuoteState.unpaid then some (.transaction "melt quote already paid")
  else
    match env.decode mq.request with
    | none => some (.generic "bolt11 decode failed")
    | some inv =>
      if (match inv.amount_msat with | some a => a == 0 | none => true) then
        some (.transaction "invoice has no amount.")
      else if m.amount ≠ mq.amount then some (.transaction "amounts do not match")
      else if mq.request ≠ m.request then some (.transaction "bolt11 requests do not match")
      else if m.unit ≠ mq.unit then some (.transaction "units do not match")
      else if m.method ≠ mq.method then some (.transaction "methods do not match")
      else if m.paid then some (.transaction "mint quote already paid")
      else if m.issued then some (.transaction "mint quote already issued")
      else if m.state ≠ MintQuoteState.unpaid then some (.transaction "mint quote already paid")
      else none

/-- `Ledger.melt_mint_settle_internally` (`ledger.py` lines 817-893): when a
mint quote shares the melt quote's request, validate both quotes and the
invoice, mark both as paid with the same `paid_time` and `fee_paid = 0`, and
persist both updates on one database connection. -/
def melt_mint_settle_internally (env : Env) (mq : MeltQuote) (s : St) :
    MRes MeltQuote :=
  match lookupMintQuoteByRequest s.db mq.request with
  | none => (.ok mq, s)
  | some m =>
    match settleChecks env mq m with
    | some e => (.error e, s)
    | none =>
      let mq2 := { mq with fee_paid := 0, paid := true,
                           state := MeltQuoteState.paid, paid_time := some env.now }
      let m2 := { m with paid := true, state := MintQuoteState.paid,
                         paid_time := some env.now }
      (.ok mq2, runTxn s [.updateMeltQuote mq2, .updateMintQuote m2])

/-- The validation phase of `Ledger.melt` (`ledger.py` lines 915-959): load and
refresh the quote, check its state, check the change outputs' unit, check the
input amounts against `amount + fee_reserve + input_fees`, check the peg-out
limit and verify the proofs.  Returns the quote and `fee_reserve_provided`. -/
def meltPre (env : Env) (L : LedgerK) (proofs : List Proof) (quote_id : String)
    (outputs : Option (List BlindedMessage)) (s : St) : MRes (MeltQuote × Int) :=
  andThen (get_melt_quote env quote_id s) (fun mq s =>
    if env.unit_method_ok mq.unit mq.method = false then
      (.error (.transaction "unit or method not supported"), s)
    else if mq.state ≠ MeltQuoteState.unpaid then
      (.error (.transaction "melt quote already paid"), s)
    else
      let outputsCheck : Except Err Unit :=
        match outputs with
        | some (o :: rest) =>
          if env.verify_outputs_skip (o :: rest) = false then
            .error (.transaction "outputs did not verify")
          else
            match lookupKeyset L o.id with
            | none => .error .keyError
            | some ks =>
              if mq.unit ≠ ks.unit then
                .error (.transaction "output unit does not match quote unit")
              else .ok ()
        | _ => .ok ()
      match outputsCheck with
      | .error e => (.error e, s)
      | .ok _ =>
        let total_provided := sum_proofs proofs
        let input_fees := env.get_fees_for_proofs proofs
        let total_needed := mq.amount + mq.fee_reserve + input_fees
        let fee_reserve_provided := total_provided - mq.amount - input_fees
        if total_provided < total_needed then
          (.error (.transaction "not enough inputs provided for melt"), s)
        else if fee_reserve_provided < mq.fee_reserve then
          (.error (.transaction "not enough fee reserve provided for melt"), s)
        else if env.max_peg_out ≠ 0 ∧ env.max_peg_out < total_provided then
          (.error (.notAllowed "maximum melt amount"), s)
        else if env.verify_inputs_and_outputs proofs = false then
          (.error (.transaction "inputs did not verify"), s)
        else (.ok (mq, fee_reserve_provided), s))

/-- The external payment step of `Ledger.melt` (`ledger.py` lines 966-989):
when the quote is still unpaid call the backend `pay_invoice` (recorded in
`St.calls` with the quote state passed to it), raise on failure, and on
success stamp `fee_paid`, `payment_preimage`, `paid` and `paid_time`. -/
def meltPayStep (env : Env) (mq : MeltQuote) (s : St) : MRes MeltQuote :=
  if mq.paid = false ∧ mq.state = MeltQuoteState.unpaid then
    let s := { s with calls := s.calls ++ [mq.state] }
    let payment := env.pay_invoice mq (mq.fee_reserve * 1000)
    if payment.ok = false then
      (.error (.lightning "Lightning payment unsuccessful"), s)
    else
      (.ok { mq with fee_paid := (match payment.fee with
                                  | some f => f
                                  | none => mq.fee_paid),
                     payment_preimage := (match payment.preimage with
                                          | some p =>
                                            if p ≠ "" then some p else mq.payment_preimage
                                          | none => mq.payment_preimage),
                     paid := true, state := MeltQuoteState.paid,
                     paid_time := some env.now }, s)
  else (.ok mq, s)

/-- The success tail of `Ledger.melt` (`ledger.py` lines 991-1007): invalidate
the input proofs, generate change promises from the blank outputs (the source
resolves `self.keysets[outputs[0].id]` first) and store the final quote. -/
def meltFinalize (env : Env) (L : LedgerK) (mq : MeltQuote) (proofs : List Proof)
    (outputs : Option (List BlindedMessage)) (frp : Int) (s : St) : MRes MeltQuote :=
  let s := runTxn s (invalidateProofsOps env proofs (some mq.quote))
  andThen (match outputs with
    | some (o :: rest) =>
      match lookupKeyset L o.id with
      | none => ((.error .keyError : Except Err (List BlindedSignature)), s)
      | some ks =>
        generate_change_promises env L frp mq.fee_paid (some (o :: rest)) (some ks) s
    | _ => (.ok [], s)) (fun return_promises s =>
    let mq2 := { mq with change := return_promises }
    (.ok mq2, runTxn s [.updateMeltQuote mq2]))

/-- The body of the `try` block of `Ledger.melt` (`ledger.py` lines 963-1007):
attempt internal settlement, run the external payment step, then finalize. -/
def meltTry (env : Env) (L : LedgerK) (mq : MeltQuote) (proofs : List Proof)
    (outputs : Option (List BlindedMessage)) (frp : Int) (s : St) : MRes MeltQuote :=
  andThen (melt_mint_settle_internally env mq s) (fun mq s =>
    andThen (meltPayStep env mq s) (fun mq s =>
      meltFinalize env L mq proofs outputs frp s))

/-- `Ledger.melt` (`ledger.py` lines 895-1016): validation, reservation of the
input proofs as pending, the `try` body and the `finally` clause that always
removes the pending entries, on success and on error alike. -/
def melt (env : Env) (L : LedgerK) (proofs : List Proof) (quote_id : String)
    (outputs : Option (List BlindedMessage)) (s : St) : MRes MeltQuote :=
  andThen (meltPre env L proofs quote_id outputs s) (fun pre s =>
    andThen (setProofsPending env proofs (some pre.fst.quote) s) (fun _ s =>
      match meltTry env L pre.fst proofs outputs pre.snd s with
      | (.ok mq, s) => (.ok mq, unsetProofsPending env proofs s)
      | (.error e, s) => (.error e, unsetProofsPending env proofs s)))

/-- The per-output loop of `Ledger.split_for_amount` (`ledger.py` lines
1104-1107).  Each iteration signs the **whole** `outputs` list and then runs
`promises = promises.append(promise)`: `list.append` returns `None`, so the
accumulator becomes `None` after the first iteration and the second iteration
raises an `AttributeError`.  The accumulated database writes of the shared
connection are returned for the caller to commit (the source's connection
rolls back when the loop raises). -/
def splitForAmountLoop (env : Env) (L : LedgerK) (alloutputs : List BlindedMessage)
    (keyset : Option MintKeyset) :
    List BlindedMessage → Option (List BlindedSignature) → List DbOp →
    Except Err (Option (List BlindedSignature) × List DbOp)
  | [], acc, ops => .ok (acc, ops)
  | _ :: rest, acc, ops =>
    match generatePromisesOps env L alloutputs keyset with
    | .error e => .error e
    | .ok r =>
      match acc with
      | none => .error .attributeError
      | some _ => splitForAmountLoop env L alloutputs keyset rest none (ops ++ r.snd)

/-- `Ledger.split_for_amount` (`ledger.py` lines 1066-1117): verify the
balance and the proof, reserve the proof as pending, invalidate it and run the
defective signing loop on one connection (committed only if the loop does not
raise), and always release the pending reservation. -/
def split_for_amount (env : Env) (L : LedgerK) (proof : Proof)
    (outputs : List BlindedMessage) (keyset : Option MintKeyset) (s : St) :
    MRes (Option (List BlindedSignature)) :=
  if env.verify_equation_balanced [proof] outputs = false then
    (.error (.transaction "inputs do not have same amount as outputs"), s)
  else if env.verify_io_for_amount [proof] outputs = false then
    (.error (.transaction "verification failed"), s)
  else
    andThen (setProofsPending env [proof] none s) (fun _ s =>
      match splitForAmountLoop env L outputs keyset outputs (some [])
          (invalidateProofsOps env [proof] none) with
      | .ok r => (.ok r.fst, unsetProofsPending env [proof] (runTxn s r.snd))
      | .error e => (.error e, unsetProofsPending env [proof] s))

/-- `Ledger.restore` (`ledger.py` lines 1119-1134): for each output look up the
stored promise by `B_` and collect, in input order, the outputs that match
together with their promises.  The source performs only `get_promise` reads on
its connection, so the operation is a pure function of the promises table. -/
def restore (db : DB) (outputs : List BlindedMessage) :
    List BlindedMessage × List BlindedSignature :=
  outputs.foldl
    (fun acc o =>
      match getPromise db o.B_ with
      | some p => (acc.fst ++ [o], acc.snd ++ [promiseToSignature p])
      | none => acc)
    ([], [])

/-! ### Concrete fixtures used by witnesses and counterexamples -/

/-- A concrete environment: all verification predicates accept, the backend
reports unpaid invoices and failing payments, fees are zero. -/
def envW : Env :=
  { now := 100
    hash_to_curve := fun sec => "Y." ++ sec
    parsePoint := fun b => some b
    step2_bob := fun b k => ("C." ++ b ++ "." ++ k, "e1", "s1")
    verify_outputs := fun _ => true
    verify_outputs_skip := fun _ => true
    verify_inputs_and_outputs := fun _ => true
    verify_equation_balanced := fun _ _ => true
    verify_io_for_amount := fun _ _ => true
    unit_method_ok := fun _ _ => true
    get_fees_for_proofs := fun _ => 0
    decode := fun _ => some { amount_msat := some 1000000 }
    invoice_status := fun _ => { paid := false }
    payment_status := fun _ => { paid := false }
    pay_invoice := fun _ _ => { ok := false }
    max_peg_out := 0 }

/-- A concrete active keyset with keys for the small powers of two. -/
def ksW : MintKeyset :=
  { id := "ks1", unit := "sat", active := true,
    private_keys := [(1, "k1"), (2, "k2"), (4, "k4"), (8, "k8")] }

/-- A concrete ledger holding `ksW`. -/
def LW : LedgerK := { keysets := [("ks1", ksW)] }

/-- A concrete blinded output for amount 8 under `ksW`. -/
def outW : BlindedMessage := { id := "ks1", amount := 8, B_ := "B1" }

/-- A paid mint quote over 8 sat with the given expiry. -/
def mintQuoteW (e : Option Nat) : MintQuote :=
  { quote := "mq1", method := "bolt11", request := "lnbc1", checking_id := "chk1",
    unit := "sat", amount := 8, issued := false, paid := true,
    state := MintQuoteState.paid, expiry := e }

/-- A database holding only `mintQuoteW e`. -/
def mintDbW (e : Option Nat) : DB :=
  { mint_quotes := [mintQuoteW e], melt_quotes := [], promises := [],
    proofs_used := [], proofs_pending := [] }

/-- The initial state for the mint runs. -/
def mintStW (e : Option Nat) : St :=
  { db := mintDbW e, txns := [], calls := [], locks := [] }

/-- Claim C2: the spec says a `mint` call on a PAID quote with an expiry set is
rejected as expired exactly when `quote.expiry < now`.  The code at
`ledger.py:530` tests `quote.expiry > int(time.time())`: with `now = 100` it
rejects a quote expiring at 200 (a future expiry) as "quote expired" and
accepts a quote that expired at 50.  The comparison is inverted. -/
theorem c2_mint_expiry_check_inverted :
    (mint envW LW [outW] "mq1" (mintStW (some 200))).fst
      = Except.error (Err.transaction "quote expired")
    ∧ (∃ sigs, (mint envW LW [outW] "mq1" (mintStW (some 50))).fst = Except.ok sigs) := by
  exact ⟨rfl, ⟨_, rfl⟩⟩

/-- The quote `mintQuoteW none` as persisted by the issuance step of `mint`. -/
def issuedQuoteW : MintQuote :=
  { mintQuoteW none with issued := true, state := MintQuoteState.issued }

/-- The promise row stored for `outW` by the fixture run. -/
def storedPromiseW : StoredPromise :=
  { amount := 8, id := "ks1", b_ := "B1", c_ := "C.B1.k8", e := "e1", s := "s1" }

/-- Claim C1: the spec requires the ISSUED transition and the promise
persistence to happen in one database transaction.  In the code
(`ledger.py:536-538`) `update_mint_quote` commits on its own connection and
`_generate_promises` opens a second one: a successful `mint` run produces two
separate transactions, the quote update strictly before the promise stores.
Replaying only the first transaction - the on-disk state when generating or
storing the promises fails after the update committed - leaves the quote
persisted as ISSUED with no promise stored for the output. -/
theorem c1_mint_issuance_not_atomic :
    (∃ sigs, (mint envW LW [outW] "mq1" (mintStW none)).fst = Except.ok sigs)
    ∧ (mint envW LW [outW] "mq1" (mintStW none)).snd.txns
        = [[DbOp.updateMintQuote issuedQuoteW], [DbOp.storePromise storedPromiseW]]
    ∧ issuedQuoteW.state = MintQuoteState.issued
    ∧ (lookupMintQuote (applyTxns (mintDbW none) [[DbOp.updateMintQuote issuedQuoteW]]) "mq1"
        = some issuedQuoteW)
    ∧ (applyTxns (mintDbW none) [[DbOp.updateMintQuote issuedQuoteW]]).promises = [] := by
  exact ⟨⟨_, rfl⟩, rfl, rfl, rfl, rfl⟩

/-- Unrolling of the accumulator loop of `restore`. -/
theorem restore_foldl (db : DB) (outputs : List BlindedMessage) :
    ∀ acc : List BlindedMessage × List BlindedSignature,
      outputs.foldl
        (fun acc o =>
          match getPromise db o.B_ with
          | some p => (acc.fst ++ [o], acc.snd ++ [promiseToSignature p])
          | none => acc) acc
      = (acc.fst ++ outputs.filter (fun o => (getPromise db o.B_).isSome),
         acc.snd ++ outputs.filterMap (fun o => (getPromise db o.B_).map promiseToSignature)) := by
  induction outputs with
  | nil => intro acc; simp
  | cons o os ih =>
    intro acc
    simp only [List.foldl_cons, List.filter_cons, List.filterMap_cons]
    cases hp : getPromise db o.B_ with
    | none => simp [hp, ih]
    | some p => simp [hp, ih]

/-- Claim C9: `restore(outputs)` performs only promise lookups: it returns
exactly the outputs that have a stored promise keyed by their `B_`, in input
order, paired with those promises, and it is a pure function of the promises
table - two databases agreeing on the promises table give identical results,
so a repeated call without changes to that table returns the same pairs. -/
theorem c9_restore_pure (db db2 : DB) (outputs : List BlindedMessage)
    (h : db.promises = db2.promises) :
    restore db outputs
      = (outputs.filter (fun o => (getPromise db o.B_).isSome),
         outputs.filterMap (fun o => (getPromise db o.B_).map promiseToSignature))
    ∧ restore db outputs = restore db2 outputs := by
  have hg : ∀ b, getPromise db b = getPromise db2 b := by
    intro b; unfold getPromise; rw [h]
  constructor
  · unfold restore
    rw [restore_foldl]
    simp
  · unfold restore
    simp only [hg]

/-- A second output with no stored promise. -/
def outX : BlindedMessage := { id := "ks1", amount := 4, B_ := "B2" }

/-- A database whose promises table holds `storedPromiseW` only. -/
def c9db : DB :=
  { mint_quotes := [], melt_quotes := [], promises := [storedPromiseW],
    proofs_used := [], proofs_pending := [] }

/-- A database differing from `c9db` outside the promises table. -/
def c9db2 : DB :=
  { mint_quotes := [mintQuoteW none], melt_quotes := [], promises := [storedPromiseW],
    proofs_used := [], proofs_pending := [] }

/-- Witness for C9 at a concrete input. -/
theorem c9_restore_pure_witness :
    c9db.promises = c9db2.promises
    ∧ restore c9db [outW, outX] = ([outW], [promiseToSignature storedPromiseW])
    ∧ restore c9db [outW, outX] = restore c9db2 [outW, outX] := by
  have h := c9_restore_pure c9db c9db2 [outW, outX] rfl
  exact ⟨rfl, h.1.trans (by decide), h.2⟩

/-- When no reserved or duplicated `Y` conflicts, the pending reservation
succeeds and appends one transaction with the insertions. -/
theorem setProofsPending_pass (env : Env) (proofs : List Proof) (qid : Option String)
    (s : St)
    (h : (hasDup (proofYs env proofs)
          || (proofYs env proofs).any (fun y => (pendingYs s.db).contains y)) = false) :
    setProofsPending env proofs qid s
      = (.ok (),
         runTxn s ((proofYs env proofs).map (fun y => DbOp.setPending { y := y, quote_id := qid }))) := by
  unfold setProofsPending
  rw [if_neg (by rw [h]; exact Bool.false_ne_true)]

/-- The defective loop on a single output: the accumulator is assigned
`list.append`'s return value `None`, which the function then returns. -/
theorem splitForAmountLoop_single (env : Env) (L : LedgerK)
    (all : List BlindedMessage) (ks : Option MintKeyset) (o : BlindedMessage)
    (ops : List DbOp) (pr : List BlindedSignature × List DbOp)
    (hg : generatePromisesOps env L all ks = .ok pr) :
    splitForAmountLoop env L all ks [o] (some []) ops = .ok (none, ops ++ pr.snd) := by
  simp [splitForAmountLoop, hg]

/-- The defective loop on two or more outputs: the second iteration calls
`.append` on `None` and raises `AttributeError`. -/
theorem splitForAmountLoop_multi (env : Env) (L : LedgerK)
    (all : List BlindedMessage) (ks : Option MintKeyset)
    (o1 o2 : BlindedMessage) (rest : List BlindedMessage)
    (ops : List DbOp) (pr : List BlindedSignature × List DbOp)
    (hg : generatePromisesOps env L all ks = .ok pr) :
    splitForAmountLoop env L all ks (o1 :: o2 :: rest) (some []) ops
      = .error .attributeError := by
  simp [splitForAmountLoop, hg]

/-- Claim C8: a `split_for_amount` call that passes verification with a
non-empty outputs list never returns the generated blinded signatures, because
`promises = promises.append(promise)` (`ledger.py:1107`) assigns `None` to the
accumulator: with exactly one output the call returns `None`, and with two or
more outputs the second iteration raises an `AttributeError`. -/
theorem c8_split_for_amount_defect (env : Env) (L : LedgerK) (proof : Proof)
    (outputs : List BlindedMessage) (keyset : Option MintKeyset) (s : St)
    (pr : List BlindedSignature × List DbOp)
    (hb : env.verify_equation_balanced [proof] outputs = true)
    (hv : env.verify_io_for_amount [proof] outputs = true)
    (hfresh : (pendingYs s.db).contains (env.hash_to_curve proof.secret) = false)
    (hg : generatePromisesOps env L outputs keyset = .ok pr) :
    (∀ o, outputs = [o] →
      (split_for_amount env L proof outputs keyset s).fst = .ok none)
    ∧ (∀ o1 o2 rest, outputs = o1 :: o2 :: rest →
      (split_for_amount env L proof outputs keyset s).fst = .error .attributeError) := by
  have hset := setProofsPending_pass env [proof] none s
    (by simpa [proofYs, hasDup] using hfresh)
  constructor
  · intro o ho
    subst ho
    unfold split_for_amount
    rw [hb, hv]
    simp only [Bool.true_eq_false, if_false]
    rw [hset]
    simp only [andThen]
    rw [splitForAmountLoop_single env L [o] keyset o _ pr hg]
  · intro o1 o2 rest ho
    subst ho
    unfold split_for_amount
    rw [hb, hv]
    simp only [Bool.true_eq_false, if_false]
    rw [hset]
    simp only [andThen]
    rw [splitForAmountLoop_multi env L (o1 :: o2 :: rest) keyset o1 o2 rest _ pr hg]

/-- A concrete proof used by the melt and split fixtures. -/
def proofW : Proof := { id := "ks1", amount := 8, secret := "sec1" }

/-- An empty database. -/
def emptyDb : DB :=
  { mint_quotes := [], melt_quotes := [], promises := [], proofs_used := [],
    proofs_pending := [] }

/-- The empty initial state. -/
def emptySt : St := { db := emptyDb, txns := [], calls := [], locks := [] }

/-- Witness for C8 at concrete inputs: one output returns `None`, two outputs
raise `AttributeError`. -/
theorem c8_split_for_amount_defect_witness :
    (split_for_amount envW LW proofW [outW] none emptySt).fst = .ok none
    ∧ (split_for_amount envW LW proofW [outW, outX] none emptySt).fst
        = .error .attributeError := by
  refine ⟨(c8_split_for_amount_defect envW LW proofW [outW] none emptySt _
      rfl rfl rfl rfl).1 outW rfl,
    (c8_split_for_amount_defect envW LW proofW [outW, outX] none emptySt _
      rfl rfl rfl rfl).2 outW outX [] rfl⟩

/-- `amount_split` of a non-positive integer is empty. -/
theorem amount_split_nonpos (a : Int) (h : a ≤ 0) : amount_split a = [] := by
  unfold amount_split
  rw [Int.toNat_of_nonpos h]
  rfl

/-- A promise generated by one loop iteration carries the output's amount and
keyset id. -/
theorem generatePromiseStep_ok (env : Env) (L : LedgerK) (o : BlindedMessage)
    (ks : Option MintKeyset) (r : MintKeyset × StoredPromise)
    (h : generatePromiseStep env L o ks = .ok r) :
    r.snd.amount = o.amount ∧ r.snd.id = o.id := by
  unfold generatePromiseStep at h
  repeat' split at h
  all_goals cases h
  exact ⟨rfl, rfl⟩

/-- The signing loop extends the accumulator with one promise per output,
preserving amounts and keyset ids in order. -/
theorem generatePromisesGo_spec (env : Env) (L : LedgerK) :
    ∀ (os : List BlindedMessage) (ks : Option MintKeyset) (acc ps : List StoredPromise),
      generatePromisesGo env L os ks acc = .ok ps →
      ps.map (fun p => (p.amount, p.id))
        = acc.map (fun p => (p.amount, p.id)) ++ os.map (fun o => (o.amount, o.id)) := by
  intro os
  induction os with
  | nil =>
    intro ks acc ps h
    unfold generatePromisesGo at h
    cases h
    simp
  | cons o rest ih =>
    intro ks acc ps h
    unfold generatePromisesGo at h
    cases hstep : generatePromiseStep env L o ks with
    | error e => rw [hstep] at h; cases h
    | ok r =>
      rw [hstep] at h
      have hrec := ih (some r.fst) (acc ++ [r.snd]) ps h
      have hr := generatePromiseStep_ok env L o ks r hstep
      simp only [List.map_append, List.map_cons, List.map_nil, List.append_assoc] at hrec ⊢
      rw [hrec, hr.1, hr.2]
      simp

/-- On success, `_generate_promises` returns one signature per output with the
output's amount and keyset id. -/
theorem generatePromisesOps_ok (env : Env) (L : LedgerK) (os : List BlindedMessage)
    (ks : Option MintKeyset) (sigs : List BlindedSignature) (ops : List DbOp)
    (h : generatePromisesOps env L os ks = .ok (sigs, ops)) :
    sigs.length = os.length
    ∧ sigs.map (·.amount) = os.map (·.amount)
    ∧ sigs.map (·.id) = os.map (·.id) := by
  unfold generatePromisesOps at h
  cases hgo : generatePromisesGo env L os ks [] with
  | error e => rw [hgo] at h; cases h
  | ok ps =>
    rw [hgo] at h
    cases h
    have hmap := generatePromisesGo_spec env L os ks [] ps hgo
    simp only [List.map_nil, List.nil_append] at hmap
    refine ⟨?_, ?_, ?_⟩
    · have := congrArg List.length hmap
      simpa using this
    · have := congrArg (List.map Prod.fst) hmap
      simpa [List.map_map, Function.comp, promiseToSignature] using this
    · have := congrArg (List.map Prod.snd) hmap
      simpa [List.map_map, Function.comp, promiseToSignature] using this

/-- Imprinting amounts into outputs by position yields exactly the imprinted
amounts, truncated to the number of outputs. -/
theorem zipWith_imprint_amounts (os2 : List BlindedMessage) :
    ∀ ams : List Int,
      ((os2.zipWith (fun o a => { o with amount := a }) ams).map (·.amount))
        = ams.take os2.length := by
  induction os2 with
  | nil => intro ams; simp
  | cons o os ih =>
    intro ams
    cases ams with
    | nil => simp
    | cons a as => simp [ih]

/-- Insertion preserves length up to one. -/
theorem insertDesc_length (a : Int) : ∀ l : List Int, (insertDesc a l).length = l.length + 1
  | [] => rfl
  | b :: bs => by
      unfold insertDesc
      split
      · rfl
      · simp [insertDesc_length a bs]

/-- The descending sort preserves length. -/
theorem sortDesc_length (l : List Int) : (sortDesc l).length = l.length := by
  induction l with
  | nil => rfl
  | cons a l ih => simp [sortDesc, insertDesc_length] at ih ⊢; exact ih

/-- Claim C6: `_generate_change_promises(fee_provided, fee_paid, outputs)`
produces no change whenever `overpaid = fee_provided - fee_paid ≤ 0` or no
blank outputs are supplied; otherwise, with `k` the length of the binary
decomposition of `overpaid` and `n = min(len(outputs), k)`, it signs exactly
the first `n` outputs with their amounts overwritten by the `n` largest
decomposition values in descending order. -/
theorem c6_generate_change_promises (env : Env) (L : LedgerK)
    (fee_provided fee_paid : Int) (outputs : Option (List BlindedMessage))
    (keyset : Option MintKeyset) (s : St) :
    ((fee_provided - fee_paid ≤ 0 ∨ outputs = none ∨ outputs = some []) →
      (generate_change_promises env L fee_provided fee_paid outputs keyset s).fst
        = .ok []
      ∧ (generate_change_promises env L fee_provided fee_paid outputs keyset s).snd.db
        = s.db)
    ∧ (∀ os, outputs = some os → 0 < fee_provided - fee_paid →
        ∀ sigs ops,
          verifyNoDuplicateOutputs
            ((os.take (min os.length (amount_split (fee_provided - fee_paid)).length)).zipWith
              (fun o a => { o with amount := a })
              (sortDesc (amount_split (fee_provided - fee_paid)))) = true →
          generatePromisesOps env L
            ((os.take (min os.length (amount_split (fee_provided - fee_paid)).length)).zipWith
              (fun o a => { o with amount := a })
              (sortDesc (amount_split (fee_provided - fee_paid)))) keyset = .ok (sigs, ops) →
          generate_change_promises env L fee_provided fee_paid outputs keyset s
            = (.ok sigs, runTxn s ops)
          ∧ sigs.length = min os.length (amount_split (fee_provided - fee_paid)).length
          ∧ sigs.map (·.amount)
              = (sortDesc (amount_split (fee_provided - fee_paid))).take
                  (min os.length (amount_split (fee_provided - fee_paid)).length)) := by
  constructor
  · intro hcase
    by_cases hz : fee_provided - fee_paid = 0
    · unfold generate_change_promises
      rw [if_pos (Or.inl hz)]
      exact ⟨rfl, rfl⟩
    · rcases hcase with hle | hnone | hempty
      · cases outputs with
        | none =>
          unfold generate_change_promises
          rw [if_pos (Or.inr rfl)]
          exact ⟨rfl, rfl⟩
        | some os =>
          simp only [generate_change_promises]
          rw [if_neg (by simp [hz])]
          rw [amount_split_nonpos _ hle]
          simp [sortDesc, verifyNoDuplicateOutputs, hasDup, generate_promises,
            generatePromisesOps, generatePromisesGo, runTxn, applyTxn]
      · rw [hnone]
        unfold generate_change_promises
        rw [if_pos (Or.inr rfl)]
        exact ⟨rfl, rfl⟩
      · rw [hempty]
        simp only [generate_change_promises]
        rw [if_neg (by simp [hz])]
        simp [verifyNoDuplicateOutputs, hasDup, generate_promises,
          generatePromisesOps, generatePromisesGo, runTxn, applyTxn]
  · intro os ho hpos sigs ops hdup hg
    subst ho
    simp only [generate_change_promises, Option.getD_some]
    rw [if_neg (by simp; omega)]
    rw [if_neg (by simp [hdup])]
    unfold generate_promises
    rw [hg]
    refine ⟨rfl, ?_, ?_⟩
    · have hl := (generatePromisesOps_ok env L _ keyset sigs ops hg).1
      rw [hl, List.length_zipWith, List.length_take, sortDesc_length]
      omega
    · have ham := (generatePromisesOps_ok env L _ keyset sigs ops hg).2.1
      rw [ham, zipWith_imprint_amounts, List.length_take]
      congr 1
      omega

/-- Witness for C6 at concrete inputs: zero overpaid fee yields no change;
overpaid fee 3 with two blank outputs yields two promises of amounts 2 and 1. -/
theorem c6_generate_change_promises_witness :
    (generate_change_promises envW LW 5 5 (some [outW]) (some ksW) emptySt).fst = .ok []
    ∧ (generate_change_promises envW LW 5 2 (some [outW, outX]) (some ksW) emptySt).fst
        = .ok [{ id := "ks1", amount := 2, C_ := "C.B1.k2", e := "e1", s := "s1" },
               { id := "ks1", amount := 1, C_ := "C.B2.k1", e := "e1", s := "s1" }] := by
  have ha := (c6_generate_change_promises envW LW 5 5 (some [outW]) (some ksW) emptySt).1
    (Or.inl (by decide))
  have hb := (c6_generate_change_promises envW LW 5 2 (some [outW, outX]) (some ksW)
    emptySt).2 [outW, outX] rfl (by decide) _ _ (by decide) rfl
  refine ⟨ha.1, ?_⟩
  rw [hb.1]
  rfl

/-- Committing a transaction does not touch the locks map. -/
theorem runTxn_locks (s : St) (ops : List DbOp) : (runTxn s ops).locks = s.locks := rfl

/-- `get_mint_quote` never touches the locks map. -/
theorem get_mint_quote_locks (env : Env) (qid : String) (s : St) :
    (get_mint_quote env qid s).snd.locks = s.locks := by
  unfold get_mint_quote
  split
  · rfl
  · split_ifs <;> rfl

/-- `_generate_promises` never touches the locks map. -/
theorem generate_promises_locks (env : Env) (L : LedgerK)
    (outputs : List BlindedMessage) (ks : Option MintKeyset) (s : St) :
    (generate_promises env L outputs ks s).snd.locks = s.locks := by
  unfold generate_promises
  split <;> rfl

/-- After inserting the lock entry the key is present. -/
theorem insertLock_contains (qid : String) (l : List String) :
    (insertLock qid l).contains qid = true := by
  unfold insertLock
  split
  · assumption
  · simp

/-- After deleting the lock entry the key is absent. -/
theorem removeLock_not_contains (qid : String) (l : List String) :
    (removeLock qid l).contains qid = false := by
  induction l with
  | nil => rfl
  | cons x xs ih =>
    unfold removeLock at ih ⊢
    rw [List.filter_cons]
    by_cases hx : x = qid
    · simp [hx, ih]
    · simp [hx, List.contains_cons, Ne.symm hx, ih]

/-- Claim C10: a `mint` call that fails after creating the per-quote lock entry
(quote not found or not paid, already issued, unit or amount mismatch, the
expiry check) leaves the entry in the ledger's `locks` map - `del
self.locks[quote_id]` (`ledger.py:544`) runs only after the `async with` block
completes - while a call that completes and returns promises deletes it. -/
theorem c10_mint_lock_entry (env : Env) (L : LedgerK) (o : BlindedMessage)
    (os : List BlindedMessage) (quote_id : String) (s : St) (ks0 : MintKeyset)
    (hv : env.verify_outputs (o :: os) = true)
    (hk : lookupKeyset L o.id = some ks0) :
    (∀ e s2, mint env L (o :: os) quote_id s = (.error e, s2) →
      s2.locks.contains quote_id = true)
    ∧ (∀ sigs s2, mint env L (o :: os) quote_id s = (.ok sigs, s2) →
      s2.locks.contains quote_id = false) := by
  suffices h : ((∃ e, (mint env L (o :: os) quote_id s).fst = .error e) →
        (mint env L (o :: os) quote_id s).snd.locks.contains quote_id = true)
      ∧ ((∃ sigs, (mint env L (o :: os) quote_id s).fst = .ok sigs) →
        (mint env L (o :: os) quote_id s).snd.locks.contains quote_id = false) by
    constructor
    · intro e s2 hh
      have := h.1 ⟨e, by rw [hh]⟩
      rwa [hh] at this
    · intro sigs s2 hh
      have := h.2 ⟨sigs, by rw [hh]⟩
      rwa [hh] at this
  unfold mint
  rw [hv]
  simp only [Bool.true_eq_false, if_false, hk]
  rcases hgm : get_mint_quote env quote_id { s with locks := insertLock quote_id s.locks }
    with ⟨r1, t1⟩
  have ht1 : t1.locks = insertLock quote_id s.locks := by
    have := get_mint_quote_locks env quote_id { s with locks := insertLock quote_id s.locks }
    rw [hgm] at this
    exact this
  cases r1 with
  | error e1 =>
    simp only [andThen]
    constructor
    · intro _
      rw [ht1]
      exact insertLock_contains _ _
    · rintro ⟨sigs, hsig⟩
      simp at hsig
  | ok q =>
    simp only [andThen]
    cases hchk : mintChecks env ks0 (sumOutputs (o :: os)) q with
    | some e0 =>
      constructor
      · intro _
        rw [ht1]
        exact insertLock_contains _ _
      · rintro ⟨sigs, hsig⟩
        simp at hsig
    | none =>
      rcases hgp : generate_promises env L (o :: os) none
          (runTxn t1 [DbOp.updateMintQuote { q with issued := true, state := MintQuoteState.issued }])
        with ⟨r2, t2⟩
      have ht2 : t2.locks = t1.locks := by
        have := generate_promises_locks env L (o :: os) none
          (runTxn t1 [DbOp.updateMintQuote { q with issued := true, state := MintQuoteState.issued }])
        rw [hgp] at this
        exact this
      cases r2 with
      | error e2 =>
        simp only [andThen]
        constructor
        · intro _
          rw [ht2, ht1]
          exact insertLock_contains _ _
        · rintro ⟨sigs, hsig⟩
          simp at hsig
      | ok sigs2 =>
        simp only [andThen]
        constructor
        · rintro ⟨e, he⟩
          simp at he
        · intro _
          exact removeLock_not_contains _ _

/-- Witness for C10 at concrete inputs: a failing `mint` (the expiry branch)
leaves the lock entry, a successful `mint` removes it. -/
theorem c10_mint_lock_entry_witness :
    (mint envW LW [outW] "mq1" (mintStW (some 200))).snd.locks.contains "mq1" = true
    ∧ (mint envW LW [outW] "mq1" (mintStW none)).snd.locks.contains "mq1" = false := by
  have h1 := c10_mint_lock_entry envW LW outW [] "mq1" (mintStW (some 200)) ksW rfl rfl
  have h2 := c10_mint_lock_entry envW LW outW [] "mq1" (mintStW none) ksW rfl rfl
  exact ⟨h1.1 _ _ rfl, h2.2 _ _ rfl⟩

/-- Inversion of a successful `get_melt_quote`: either the quote was returned
as loaded with no state change, or it was refreshed to PAID. -/
theorem get_melt_quote_ok (env : Env) (qid : String) (s : St) (mq : MeltQuote)
    (s2 : St) (h : get_melt_quote env qid s = (.ok mq, s2)) :
    (lookupMeltQuote s.db qid = some mq ∧ s2 = s) ∨ mq.state = MeltQuoteState.paid := by
  unfold get_melt_quote at h
  cases hl : lookupMeltQuote s.db qid with
  | none => rw [hl] at h; simp at h
  | some q =>
    rw [hl] at h
    dsimp only at h
    by_cases hUM : env.unit_method_ok q.unit q.method = false
    · rw [if_pos hUM] at h; simp at h
    rw [if_neg hUM] at h
    by_cases hC : q.paid = false ∧ lookupMintQuoteByRequest s.db q.request = none
    · rw [if_pos hC] at h
      by_cases hP : (env.payment_status q.checking_id).paid
      · rw [if_pos hP] at h
        simp only [Prod.mk.injEq, Except.ok.injEq] at h
        right
        rw [← h.1]
      · rw [if_neg hP] at h
        simp only [Prod.mk.injEq, Except.ok.injEq] at h
        exact Or.inl ⟨by rw [h.1], h.2.symm⟩
    · rw [if_neg hC] at h
      simp only [Prod.mk.injEq, Except.ok.injEq] at h
      exact Or.inl ⟨by rw [h.1], h.2.symm⟩

/-- Inversion of a successful `meltPre`: the melt quote was loaded unmodified,
it is UNPAID, the inputs cover `amount + fee_reserve + input_fees`, and the
provided fee reserve covers `fee_reserve`. -/
theorem meltPre_ok (env : Env) (L : LedgerK) (proofs : List Proof)
    (quote_id : String) (outputs : Option (List BlindedMessage)) (s : St)
    (mq : MeltQuote) (frp : Int) (s2 : St)
    (h : meltPre env L proofs quote_id outputs s = (.ok (mq, frp), s2)) :
    lookupMeltQuote s.db quote_id = some mq
    ∧ mq.state = MeltQuoteState.unpaid
    ∧ frp = sum_proofs proofs - mq.amount - env.get_fees_for_proofs proofs
    ∧ sum_proofs proofs ≥ mq.amount + mq.fee_reserve + env.get_fees_for_proofs proofs
    ∧ frp ≥ mq.fee_reserve
    ∧ s2 = s := by
  simp only [meltPre] at h
  rcases hg : get_melt_quote env quote_id s with ⟨r1, t1⟩
  rw [hg] at h
  cases r1 with
  | error e => simp [andThen] at h
  | ok q =>
    simp only [andThen] at h
    by_cases hUM : env.unit_method_ok q.unit q.method = false
    · rw [if_pos hUM] at h; simp at h
    rw [if_neg hUM] at h
    by_cases hST : q.state ≠ MeltQuoteState.unpaid
    · rw [if_pos hST] at h; simp at h
    rw [if_neg hST] at h
    have hstate : q.state = MeltQuoteState.unpaid := not_not.mp hST
    split at h
    · simp at h
    · by_cases hTP : sum_proofs proofs < q.amount + q.fee_reserve + env.get_fees_for_proofs proofs
      · rw [if_pos hTP] at h; simp at h
      rw [if_neg hTP] at h
      by_cases hFR : sum_proofs proofs - q.amount - env.get_fees_for_proofs proofs < q.fee_reserve
      · rw [if_pos hFR] at h; simp at h
      rw [if_neg hFR] at h
      by_cases hPO : env.max_peg_out ≠ 0 ∧ env.max_peg_out < sum_proofs proofs
      · rw [if_pos hPO] at h; simp at h
      rw [if_neg hPO] at h
      by_cases hVI : env.verify_inputs_and_outputs proofs = false
      · rw [if_pos hVI] at h; simp at h
      rw [if_neg hVI] at h
      simp only [Prod.mk.injEq, Except.ok.injEq] at h
      obtain ⟨⟨rfl, rfl⟩, rfl⟩ := h
      rcases get_melt_quote_ok env quote_id s q t1 hg with ⟨hlk, rfl⟩ | hpaid
      · exact ⟨hlk, hstate, rfl, by omega, by omega, rfl⟩
      · rw [hpaid] at hstate; cases hstate

/-- A successful `melt` run passed `meltPre`. -/
theorem melt_ok_meltPre (env : Env) (L : LedgerK) (proofs : List Proof)
    (quote_id : String) (outputs : Option (List BlindedMessage)) (s : St)
    (mqf : MeltQuote) (s2 : St)
    (h : melt env L proofs quote_id outputs s = (.ok mqf, s2)) :
    ∃ pre s1, meltPre env L proofs quote_id outputs s = (.ok pre, s1) := by
  unfold melt at h
  rcases hp : meltPre env L proofs quote_id outputs s with ⟨r1, t1⟩
  rw [hp] at h
  cases r1 with
  | error e => simp [andThen] at h
  | ok pre => exact ⟨pre, t1, rfl⟩

/-- Claim C7: a `melt(quote_id, proofs, outputs)` call raises an error unless
the quote is in state UNPAID, the proofs cover
`quote.amount + quote.fee_reserve + input_fees`, and the provided fee reserve
`Σ proof.amount − quote.amount − input_fees` covers `quote.fee_reserve`:
whenever `melt` returns successfully, all three conditions held for the loaded
quote. -/
theorem c7_melt_balance_checks (env : Env) (L : LedgerK) (proofs : List Proof)
    (quote_id : String) (outputs : Option (List BlindedMessage)) (s : St)
    (mqf : MeltQuote) (s2 : St)
    (h : melt env L proofs quote_id outputs s = (.ok mqf, s2)) :
    ∃ q, lookupMeltQuote s.db quote_id = some q
      ∧ q.state = MeltQuoteState.unpaid
      ∧ sum_proofs proofs ≥ q.amount + q.fee_reserve + env.get_fees_for_proofs proofs
      ∧ sum_proofs proofs - q.amount - env.get_fees_for_proofs proofs ≥ q.fee_reserve := by
  obtain ⟨⟨q, frp⟩, s1, hpre⟩ := melt_ok_meltPre env L proofs quote_id outputs s mqf s2 h
  have hi := meltPre_ok env L proofs quote_id outputs s q frp s1 hpre
  refine ⟨q, hi.1, hi.2.1, hi.2.2.2.1, ?_⟩
  have h3 := hi.2.2.1
  have h5 := hi.2.2.2.2.1
  omega

/-- Constructor tag of a write, used to state frame lemmas. -/
def opKind : DbOp → Nat
  | .updateMintQuote _ => 0
  | .updateMeltQuote _ => 1
  | .storePromise _ => 2
  | .invalidateProof _ => 3
  | .setPending _ => 4
  | .unsetPending _ => 5

/-- A transaction without mint-quote updates preserves the mint-quote table. -/
theorem applyTxn_no_mintQuote : ∀ (ops : List DbOp) (db : DB),
    (∀ op ∈ ops, opKind op ≠ 0) → (applyTxn db ops).mint_quotes = db.mint_quotes
  | [], _, _ => rfl
  | op :: rest, db, h => by
    rw [applyTxn, List.foldl_cons]
    have hop : (applyOp db op).mint_quotes = db.mint_quotes := by
      have h0 := h op (by simp)
      cases op <;> first | rfl | (exact absurd rfl h0)
    have ih := applyTxn_no_mintQuote rest (applyOp db op) (fun o ho => h o (by simp [ho]))
    rw [applyTxn] at ih
    rw [ih, hop]

/-- A transaction without melt-quote updates preserves the melt-quote table. -/
theorem applyTxn_no_meltQuote : ∀ (ops : List DbOp) (db : DB),
    (∀ op ∈ ops, opKind op ≠ 1) → (applyTxn db ops).melt_quotes = db.melt_quotes
  | [], _, _ => rfl
  | op :: rest, db, h => by
    rw [applyTxn, List.foldl_cons]
    have hop : (applyOp db op).melt_quotes = db.melt_quotes := by
      have h0 := h op (by simp)
      cases op <;> first | rfl | (exact absurd rfl h0)
    have ih := applyTxn_no_meltQuote rest (applyOp db op) (fun o ho => h o (by simp [ho]))
    rw [applyTxn] at ih
    rw [ih, hop]

/-- A transaction without spent-proof insertions preserves the spent table. -/
theorem applyTxn_no_invalidate : ∀ (ops : List DbOp) (db : DB),
    (∀ op ∈ ops, opKind op ≠ 3) → (applyTxn db ops).proofs_used = db.proofs_used
  | [], _, _ => rfl
  | op :: rest, db, h => by
    rw [applyTxn, List.foldl_cons]
    have hop : (applyOp db op).proofs_used = db.proofs_used := by
      have h0 := h op (by simp)
      cases op <;> first | rfl | (exact absurd rfl h0)
    have ih := applyTxn_no_invalidate rest (applyOp db op) (fun o ho => h o (by simp [ho]))
    rw [applyTxn] at ih
    rw [ih, hop]

/-- A transaction without pending-table writes preserves the pending table. -/
theorem applyTxn_no_pending : ∀ (ops : List DbOp) (db : DB),
    (∀ op ∈ ops, opKind op ≠ 4 ∧ opKind op ≠ 5) →
    (applyTxn db ops).proofs_pending = db.proofs_pending
  | [], _, _ => rfl
  | op :: rest, db, h => by
    rw [applyTxn, List.foldl_cons]
    have hop : (applyOp db op).proofs_pending = db.proofs_pending := by
      have h0 := h op (by simp)
      cases op <;> first | rfl | (exact absurd rfl h0.1) | (exact absurd rfl h0.2)
    have ih := applyTxn_no_pending rest (applyOp db op) (fun o ho => h o (by simp [ho]))
    rw [applyTxn] at ih
    rw [ih, hop]

/-- Effect of a pending-insertion transaction on the database. -/
theorem applyTxn_setPending (qid : Option String) : ∀ (ys : List String) (db : DB),
    (applyTxn db (ys.map (fun y => DbOp.setPending { y := y, quote_id := qid }))).proofs_pending
      = db.proofs_pending ++ ys.map (fun y => ({ y := y, quote_id := qid } : PendingEntry))
  | [], db => by simp [applyTxn]
  | y :: rest, db => by
    rw [List.map_cons, applyTxn, List.foldl_cons]
    have ih := applyTxn_setPending qid rest (applyOp db (.setPending { y := y, quote_id := qid }))
    rw [applyTxn] at ih
    rw [ih]
    simp [applyOp]

/-- Effect of a pending-removal transaction on the pending table. -/
theorem applyTxn_unsetPending : ∀ (ys : List String) (db : DB),
    (applyTxn db (ys.map (fun y => DbOp.unsetPending y))).proofs_pending
      = db.proofs_pending.filter (fun e => !(ys.contains e.y))
  | [], db => by simp [applyTxn]
  | y :: rest, db => by
    rw [List.map_cons, applyTxn, List.foldl_cons]
    have ih := applyTxn_unsetPending rest (applyOp db (.unsetPending y))
    rw [applyTxn] at ih
    rw [ih]
    show (db.proofs_pending.filter (fun e => e.y != y)).filter (fun e => !(rest.contains e.y))
      = db.proofs_pending.filter (fun e => !((y :: rest).contains e.y))
    rw [List.filter_filter]
    apply List.filter_congr
    intro e _
    simp [List.contains_cons, Bool.not_or, bne]
    by_cases hey : e.y = y <;> simp [hey]

/-- `get_melt_quote` leaves the pending and spent tables, the mint-quote table
and the backend-call log unchanged. -/
theorem get_melt_quote_frame (env : Env) (qid : String) (s : St) :
    (get_melt_quote env qid s).snd.db.proofs_pending = s.db.proofs_pending
    ∧ (get_melt_quote env qid s).snd.db.proofs_used = s.db.proofs_used
    ∧ (get_melt_quote env qid s).snd.db.mint_quotes = s.db.mint_quotes
    ∧ (get_melt_quote env qid s).snd.calls = s.calls := by
  unfold get_melt_quote
  split
  · exact ⟨rfl, rfl, rfl, rfl⟩
  · split_ifs <;> exact ⟨rfl, rfl, rfl, rfl⟩

/-- `meltPre` leaves the pending and spent tables, the mint-quote table and the
backend-call log unchanged. -/
theorem meltPre_frame (env : Env) (L : LedgerK) (proofs : List Proof)
    (qid : String) (outputs : Option (List BlindedMessage)) (s : St) :
    (meltPre env L proofs qid outputs s).snd.db.proofs_pending = s.db.proofs_pending
    ∧ (meltPre env L proofs qid outputs s).snd.db.proofs_used = s.db.proofs_used
    ∧ (meltPre env L proofs qid outputs s).snd.db.mint_quotes = s.db.mint_quotes
    ∧ (meltPre env L proofs qid outputs s).snd.calls = s.calls := by
  unfold meltPre
  rcases hg : get_melt_quote env qid s with ⟨r1, t1⟩
  have hf := get_melt_quote_frame env qid s
  rw [hg] at hf
  cases r1 with
  | error e => simpa [andThen] using hf
  | ok q =>
    simp only [andThen]
    repeat' split
    all_goals exact hf

/-- `melt_mint_settle_internally` leaves the pending and spent tables and the
backend-call log unchanged. -/
theorem settle_frame (env : Env) (mq : MeltQuote) (s : St) :
    (melt_mint_settle_internally env mq s).snd.db.proofs_pending = s.db.proofs_pending
    ∧ (melt_mint_settle_internally env mq s).snd.db.proofs_used = s.db.proofs_used
    ∧ (melt_mint_settle_internally env mq s).snd.calls = s.calls := by
  unfold melt_mint_settle_internally
  repeat' split
  all_goals exact ⟨rfl, rfl, rfl⟩

/-- `meltPayStep` never writes to the database. -/
theorem meltPayStep_db (env : Env) (mq : MeltQuote) (s : St) :
    (meltPayStep env mq s).snd.db = s.db := by
  unfold meltPayStep
  dsimp only
  split_ifs <;> rfl

/-- The writes of a successful `generatePromisesOps` are promise stores only. -/
theorem generatePromisesOps_kinds (env : Env) (L : LedgerK)
    (outputs : List BlindedMessage) (ks : Option MintKeyset)
    (r : List BlindedSignature × List DbOp)
    (hg : generatePromisesOps env L outputs ks = .ok r) :
    ∀ op ∈ r.snd, opKind op = 2 := by
  unfold generatePromisesOps at hg
  cases hgo : generatePromisesGo env L outputs ks [] with
  | error e => rw [hgo] at hg; cases hg
  | ok ps =>
    rw [hgo] at hg
    cases hg
    intro op hop
    simp only [List.mem_map] at hop
    obtain ⟨p, _, rfl⟩ := hop
    rfl

/-- `_generate_promises` leaves the pending and spent tables and the call log
unchanged. -/
theorem generate_promises_frame (env : Env) (L : LedgerK)
    (outputs : List BlindedMessage) (ks : Option MintKeyset) (s : St) :
    (generate_promises env L outputs ks s).snd.db.proofs_pending = s.db.proofs_pending
    ∧ (generate_promises env L outputs ks s).snd.db.proofs_used = s.db.proofs_used
    ∧ (generate_promises env L outputs ks s).snd.calls = s.calls := by
  unfold generate_promises
  cases hg : generatePromisesOps env L outputs ks with
  | error e => exact ⟨rfl, rfl, rfl⟩
  | ok r =>
    have hops := generatePromisesOps_kinds env L outputs ks r hg
    refine ⟨?_, ?_, rfl⟩
    · exact applyTxn_no_pending r.snd s.db
        (fun op ho => by rw [hops op ho]; exact ⟨by simp, by simp⟩)
    · exact applyTxn_no_invalidate r.snd s.db (fun op ho => by rw [hops op ho]; simp)

/-- `_generate_change_promises` leaves the pending and spent tables and the
call log unchanged. -/
theorem generate_change_promises_frame (env : Env) (L : LedgerK)
    (fp fpd : Int) (outputs : Option (List BlindedMessage))
    (ks : Option MintKeyset) (s : St) :
    (generate_change_promises env L fp fpd outputs ks s).snd.db.proofs_pending
        = s.db.proofs_pending
    ∧ (generate_change_promises env L fp fpd outputs ks s).snd.db.proofs_used
        = s.db.proofs_used
    ∧ (generate_change_promises env L fp fpd outputs ks s).snd.calls = s.calls := by
  unfold generate_change_promises
  dsimp only
  split
  · exact ⟨rfl, rfl, rfl⟩
  · split
    · exact ⟨rfl, rfl, rfl⟩
    · exact generate_promises_frame env L _ ks s

/-- `meltFinalize` leaves the pending table unchanged. -/
theorem meltFinalize_pending (env : Env) (L : LedgerK) (mq : MeltQuote)
    (proofs : List Proof) (outputs : Option (List BlindedMessage)) (frp : Int)
    (s : St) :
    (meltFinalize env L mq proofs outputs frp s).snd.db.proofs_pending
      = s.db.proofs_pending := by
  unfold meltFinalize
  dsimp only
  have h1 : (runTxn s (invalidateProofsOps env proofs (some mq.quote))).db.proofs_pending
      = s.db.proofs_pending := by
    show (applyTxn s.db _).proofs_pending = s.db.proofs_pending
    exact applyTxn_no_pending _ _ (by
      intro op hop
      simp only [invalidateProofsOps, List.mem_map] at hop
      obtain ⟨p, _, rfl⟩ := hop
      exact ⟨by simp [opKind], by simp [opKind]⟩)
  rcases outputs with _ | os
  · simp only [andThen]
    exact h1
  · cases os with
    | nil =>
      simp only [andThen]
      exact h1
    | cons o rest =>
      cases hk : lookupKeyset L o.id with
      | none =>
        dsimp only
        rw [hk]
        simp only [andThen]
        exact h1
      | some ks =>
        dsimp only
        rw [hk]
        dsimp only
        rcases hc : generate_change_promises env L frp mq.fee_paid (some (o :: rest))
            (some ks) (runTxn s (invalidateProofsOps env proofs (some mq.quote)))
          with ⟨r2, t2⟩
        have hcf := (generate_change_promises_frame env L frp mq.fee_paid (some (o :: rest))
          (some ks) (runTxn s (invalidateProofsOps env proofs (some mq.quote)))).1
        rw [hc] at hcf
        have hcf2 : t2.db.proofs_pending
            = (runTxn s (invalidateProofsOps env proofs (some mq.quote))).db.proofs_pending := hcf
        cases r2 with
        | error e =>
          simp only [andThen]
          rw [hcf2]
          exact h1
        | ok rp =>
          simp only [andThen]
          show t2.db.proofs_pending = s.db.proofs_pending
          rw [hcf2]
          exact h1

/-- `meltTry` leaves the pending table unchanged. -/
theorem meltTry_pending (env : Env) (L : LedgerK) (mq : MeltQuote)
    (proofs : List Proof) (outputs : Option (List BlindedMessage)) (frp : Int)
    (s : St) :
    (meltTry env L mq proofs outputs frp s).snd.db.proofs_pending
      = s.db.proofs_pending := by
  unfold meltTry
  rcases hs1 : melt_mint_settle_internally env mq s with ⟨r1, t1⟩
  have hf1 := (settle_frame env mq s).1
  rw [hs1] at hf1
  cases r1 with
  | error e => simpa [andThen] using hf1
  | ok mq1 =>
    simp only [andThen]
    rcases hp : meltPayStep env mq1 t1 with ⟨r2, t2⟩
    have hf2 := meltPayStep_db env mq1 t1
    rw [hp] at hf2
    cases r2 with
    | error e =>
      simp only [andThen]
      rw [hf2]
      exact hf1
    | ok mq2 =>
      simp only [andThen]
      rw [meltFinalize_pending, hf2]
      exact hf1

/-- Inversion of a successful pending reservation: the batch had no duplicate
or already-reserved `Y`, and exactly the insertion transaction ran. -/
theorem setProofsPending_ok (env : Env) (proofs : List Proof) (qid : Option String)
    (s : St) (u : Unit) (s2 : St)
    (h : setProofsPending env proofs qid s = (.ok u, s2)) :
    (hasDup (proofYs env proofs)
      || (proofYs env proofs).any (fun y => (pendingYs s.db).contains y)) = false
    ∧ s2 = runTxn s ((proofYs env proofs).map
        (fun y => DbOp.setPending { y := y, quote_id := qid })) := by
  unfold setProofsPending at h
  dsimp only at h
  split_ifs at h with hc
  · simp at h
  · exact ⟨Bool.eq_false_iff.mpr hc, (congrArg Prod.snd h).symm⟩

/-- A failed pending reservation leaves the state unchanged. -/
theorem setProofsPending_error (env : Env) (proofs : List Proof) (qid : Option String)
    (s : St) (e : Err) (s2 : St)
    (h : setProofsPending env proofs qid s = (.error e, s2)) : s2 = s := by
  unfold setProofsPending at h
  dsimp only at h
  split_ifs at h
  · exact (congrArg Prod.snd h).symm
  · simp at h

/-- Internal settlement is a no-op when no mint quote shares the request. -/
theorem settle_no_match (env : Env) (mq : MeltQuote) (s : St)
    (h : lookupMintQuoteByRequest s.db mq.request = none) :
    melt_mint_settle_internally env mq s = (.ok mq, s) := by
  unfold melt_mint_settle_internally
  rw [h]

/-- The payment step on an unpaid quote with a failing backend records the
call (with the quote still UNPAID) and raises. -/
theorem meltPayStep_fail (env : Env) (mq : MeltQuote) (s : St)
    (h1 : mq.paid = false) (h2 : mq.state = MeltQuoteState.unpaid)
    (h3 : (env.pay_invoice mq (mq.fee_reserve * 1000)).ok = false) :
    meltPayStep env mq s
      = (.error (.lightning "Lightning payment unsuccessful"),
         { s with calls := s.calls ++ [mq.state] }) := by
  unfold meltPayStep
  rw [if_pos ⟨h1, h2⟩]
  dsimp only
  rw [if_pos h3]

/-- Mint-quote lookup by request depends on the mint-quote table only. -/
theorem lookupMintQuoteByRequest_congr (db1 db2 : DB) (r : String)
    (h : db1.mint_quotes = db2.mint_quotes) :
    lookupMintQuoteByRequest db1 r = lookupMintQuoteByRequest db2 r := by
  unfold lookupMintQuoteByRequest
  rw [h]

/-- Frame of the pending-removal step. -/
theorem unsetProofsPending_frame (env : Env) (proofs : List Proof) (s : St) :
    (unsetProofsPending env proofs s).db.proofs_used = s.db.proofs_used
    ∧ (unsetProofsPending env proofs s).db.mint_quotes = s.db.mint_quotes
    ∧ (unsetProofsPending env proofs s).db.melt_quotes = s.db.melt_quotes
    ∧ (unsetProofsPending env proofs s).calls = s.calls
    ∧ (unsetProofsPending env proofs s).db.proofs_pending
        = s.db.proofs_pending.filter (fun e => !((proofYs env proofs).contains e.y)) := by
  refine ⟨?_, ?_, ?_, rfl, ?_⟩
  · exact applyTxn_no_invalidate _ _ (by
      intro op hop
      simp only [List.mem_map] at hop
      obtain ⟨y, _, rfl⟩ := hop
      simp [opKind])
  · exact applyTxn_no_mintQuote _ _ (by
      intro op hop
      simp only [List.mem_map] at hop
      obtain ⟨y, _, rfl⟩ := hop
      simp [opKind])
  · exact applyTxn_no_meltQuote _ _ (by
      intro op hop
      simp only [List.mem_map] at hop
      obtain ⟨y, _, rfl⟩ := hop
      simp [opKind])
  · exact applyTxn_unsetPending _ _

/-- Entries whose keys are all outside `ys` survive the removal filter. -/
theorem filter_not_contains_self (p : List PendingEntry) (ys : List String)
    (h : (ys.any (fun y => (p.map (fun e => e.y)).contains y)) = false) :
    p.filter (fun e => !(ys.contains e.y)) = p := by
  apply List.filter_eq_self.mpr
  intro e he
  by_cases hm : e.y ∈ ys
  · exfalso
    have hmem : e.y ∈ p.map (fun e => e.y) := List.mem_map.mpr ⟨e, he, rfl⟩
    have : (ys.any fun y => (p.map (fun e => e.y)).contains y) = true := by
      apply List.any_eq_true.mpr
      exact ⟨e.y, hm, by simpa using hmem⟩
    rw [this] at h
    cases h
  · simp [hm]

/-- The freshly inserted entries are all removed by the removal filter. -/
theorem inserted_entries_filtered (ys : List String) (qid : Option String) :
    ((ys.map (fun y => ({ y := y, quote_id := qid } : PendingEntry))).filter
      (fun e => !(ys.contains e.y))) = [] := by
  rw [List.filter_eq_nil_iff]
  intro e he
  simp only [List.mem_map] at he
  obtain ⟨y, hy, rfl⟩ := he
  simp [hy]

/-- Claim C4: every `melt` call that reserves its input proofs as pending
removes all their PendingProof entries before returning or propagating an
error - on any outcome the pending table is exactly as before the call - and
when the payment did not succeed (no mint quote shares the request and the
backend reports failure) `melt` raises and inserts no SpentProof entry. -/
theorem c4_melt_releases_pending (env : Env) (L : LedgerK) (proofs : List Proof)
    (quote_id : String) (outputs : Option (List BlindedMessage)) (s : St) :
    (melt env L proofs quote_id outputs s).snd.db.proofs_pending = s.db.proofs_pending
    ∧ (∀ q, lookupMeltQuote s.db quote_id = some q → q.paid = false →
        lookupMintQuoteByRequest s.db q.request = none →
        (env.pay_invoice q (q.fee_reserve * 1000)).ok = false →
        ∃ e s2, melt env L proofs quote_id outputs s = (.error e, s2)
          ∧ s2.db.proofs_used = s.db.proofs_used) := by
  unfold melt
  rcases hpre : meltPre env L proofs quote_id outputs s with ⟨r1, t1⟩
  have hpf := meltPre_frame env L proofs quote_id outputs s
  rw [hpre] at hpf
  cases r1 with
  | error e1 =>
    simp only [andThen]
    exact ⟨hpf.1, fun q _ _ _ _ => ⟨e1, t1, rfl, hpf.2.1⟩⟩
  | ok pre =>
    simp only [andThen]
    rcases hset : setProofsPending env proofs (some pre.fst.quote) t1 with ⟨r2, t2⟩
    cases r2 with
    | error e2 =>
      simp only [andThen]
      have ht2 := setProofsPending_error env proofs (some pre.fst.quote) t1 e2 t2 hset
      subst ht2
      exact ⟨hpf.1, fun q _ _ _ _ => ⟨e2, t2, rfl, hpf.2.1⟩⟩
    | ok u =>
      simp only [andThen]
      obtain ⟨hfresh, ht2⟩ := setProofsPending_ok env proofs (some pre.fst.quote) t1 u t2 hset
      subst ht2
      rcases hmt : meltTry env L pre.fst proofs outputs pre.snd
          (runTxn t1 ((proofYs env proofs).map
            (fun y => DbOp.setPending { y := y, quote_id := some pre.fst.quote })))
        with ⟨r3, t3⟩
      have hmtp := meltTry_pending env L pre.fst proofs outputs pre.snd
        (runTxn t1 ((proofYs env proofs).map
          (fun y => DbOp.setPending { y := y, quote_id := some pre.fst.quote })))
      rw [hmt] at hmtp
      have hfinal_pending : (unsetProofsPending env proofs t3).db.proofs_pending
          = s.db.proofs_pending := by
        have hu := (unsetProofsPending_frame env proofs t3).2.2.2.2
        rw [hu, hmtp]
        have hsp := applyTxn_setPending (some pre.fst.quote) (proofYs env proofs) t1.db
        have hshow : (runTxn t1 ((proofYs env proofs).map
            (fun y => DbOp.setPending { y := y, quote_id := some pre.fst.quote }))).db.proofs_pending
            = t1.db.proofs_pending ++ (proofYs env proofs).map
              (fun y => ({ y := y, quote_id := some pre.fst.quote } : PendingEntry)) := hsp
        rw [hshow, List.filter_append, inserted_entries_filtered, List.append_nil]
        have hf2 : ((proofYs env proofs).any
            (fun y => (pendingYs t1.db).contains y)) = false :=
          (Bool.or_eq_false_iff.mp hfresh).2
        rw [filter_not_contains_self t1.db.proofs_pending (proofYs env proofs) hf2]
        exact hpf.1
      constructor
      · cases r3 with
        | ok mqf => exact hfinal_pending
        | error e3 => exact hfinal_pending
      · intro q hq hqp hqm hpay
        obtain ⟨hlk, hstate, _, _, _, hs1⟩ :=
          meltPre_ok env L proofs quote_id outputs s pre.fst pre.snd t1 hpre
        have hq2 : pre.fst = q := by
          rw [hlk] at hq
          exact Option.some.inj hq
        rw [← hq2] at hqp hqm hpay
        subst hs1
        have hmq2 : lookupMintQuoteByRequest
            (runTxn t1 ((proofYs env proofs).map
              (fun y => DbOp.setPending { y := y, quote_id := some pre.fst.quote }))).db
            pre.fst.request = none := by
          have hmint : (runTxn t1 ((proofYs env proofs).map
              (fun y => DbOp.setPending { y := y, quote_id := some pre.fst.quote }))).db.mint_quotes
              = t1.db.mint_quotes := applyTxn_no_mintQuote _ _ (by
            intro op hop
            simp only [List.mem_map] at hop
            obtain ⟨y, _, rfl⟩ := hop
            simp [opKind])
          rw [lookupMintQuoteByRequest_congr _ t1.db _ hmint]
          exact hqm
        have hsettle := settle_no_match env pre.fst
          (runTxn t1 ((proofYs env proofs).map
            (fun y => DbOp.setPending { y := y, quote_id := some pre.fst.quote }))) hmq2
        have hpays := meltPayStep_fail env pre.fst
          (runTxn t1 ((proofYs env proofs).map
            (fun y => DbOp.setPending { y := y, quote_id := some pre.fst.quote })))
          hqp hstate hpay
        have hmt2 : meltTry env L pre.fst proofs outputs pre.snd
            (runTxn t1 ((proofYs env proofs).map
              (fun y => DbOp.setPending { y := y, quote_id := some pre.fst.quote })))
            = (.error (.lightning "Lightning payment unsuccessful"),
               { (runTxn t1 ((proofYs env proofs).map
                   (fun y => DbOp.setPending { y := y, quote_id := some pre.fst.quote })))
                 with calls := (runTxn t1 ((proofYs env proofs).map
                   (fun y => DbOp.setPending { y := y, quote_id := some pre.fst.quote }))).calls
                     ++ [pre.fst.state] }) := by
          unfold meltTry
          rw [hsettle]
          simp only [andThen]
          rw [hpays]
        rw [hmt] at hmt2
        have h3a : r3 = .error (.lightning "Lightning payment unsuccessful") :=
          congrArg Prod.fst hmt2
        have h3b : t3 = { (runTxn t1 ((proofYs env proofs).map
            (fun y => DbOp.setPending { y := y, quote_id := some pre.fst.quote })))
            with calls := (runTxn t1 ((proofYs env proofs).map
              (fun y => DbOp.setPending { y := y, quote_id := some pre.fst.quote }))).calls
                ++ [pre.fst.state] } := congrArg Prod.snd hmt2
        subst h3a
        refine ⟨.lightning "Lightning payment unsuccessful",
          unsetProofsPending env proofs t3, rfl, ?_⟩
        have hu1 := (unsetProofsPending_frame env proofs t3).1
        rw [hu1, h3b]
        show (applyTxn t1.db ((proofYs env proofs).map
          (fun y => DbOp.setPending { y := y, quote_id := some pre.fst.quote }))).proofs_used
            = t1.db.proofs_used
        exact applyTxn_no_invalidate _ _ (by
          intro op hop
          simp only [List.mem_map] at hop
          obtain ⟨y, _, rfl⟩ := hop
          simp [opKind])

/-- A melt quote whose request matches no mint quote. -/
def meltQX : MeltQuote :=
  { quote := "mel1", method := "bolt11", request := "lnbc2", checking_id := "chk2",
    unit := "sat", amount := 5, fee_reserve := 1, paid := false,
    state := MeltQuoteState.unpaid }

/-- A 6-sat input proof (5 amount + 1 fee reserve, no input fees). -/
def proofM6 : Proof := { id := "ks1", amount := 6, secret := "sec1" }

/-- Database holding only `meltQX`. -/
def c3db : DB :=
  { mint_quotes := [], melt_quotes := [meltQX], promises := [], proofs_used := [],
    proofs_pending := [] }

/-- Initial state for the external-payment melt runs. -/
def c3st : St := { db := c3db, txns := [], calls := [], locks := [] }

/-- Witness for C4 at a concrete input: the pending table is unchanged after
the failing melt, and no spent proof was inserted. -/
theorem c4_melt_releases_pending_witness :
    (melt envW LW [proofM6] "mel1" none c3st).snd.db.proofs_pending
        = c3st.db.proofs_pending
    ∧ ∃ e s2, melt envW LW [proofM6] "mel1" none c3st = (.error e, s2)
        ∧ s2.db.proofs_used = c3st.db.proofs_used := by
  have h := c4_melt_releases_pending envW LW [proofM6] "mel1" none c3st
  exact ⟨h.1, h.2 meltQX rfl rfl rfl rfl⟩

/-- Melt-quote lookup depends on the melt-quote table only. -/
theorem lookupMeltQuote_congr (db1 db2 : DB) (qid : String)
    (h : db1.melt_quotes = db2.melt_quotes) :
    lookupMeltQuote db1 qid = lookupMeltQuote db2 qid := by
  unfold lookupMeltQuote
  rw [h]

/-- `get_melt_quote` on an unpaid quote with no matching mint quote and an
unpaid backend payment returns the quote unchanged. -/
theorem get_melt_quote_no_match_unpaid (env : Env) (qid : String) (s : St)
    (q : MeltQuote)
    (hq : lookupMeltQuote s.db qid = some q)
    (hum : env.unit_method_ok q.unit q.method = true)
    (hqp : q.paid = false)
    (hqm : lookupMintQuoteByRequest s.db q.request = none)
    (hstatus : (env.payment_status q.checking_id).paid = false) :
    get_melt_quote env qid s = (.ok q, s) := by
  unfold get_melt_quote
  rw [hq]
  dsimp only
  rw [if_neg (by simp [hum])]
  rw [if_pos ⟨hqp, hqm⟩]
  rw [if_neg (by simp [hstatus])]

/-- `get_melt_quote` on a quote whose request matches a mint quote returns the
quote unchanged without consulting the backend. -/
theorem get_melt_quote_with_match (env : Env) (qid : String) (s : St)
    (q : MeltQuote) (m : MintQuote)
    (hq : lookupMeltQuote s.db qid = some q)
    (hum : env.unit_method_ok q.unit q.method = true)
    (hm : lookupMintQuoteByRequest s.db q.request = some m) :
    get_melt_quote env qid s = (.ok q, s) := by
  unfold get_melt_quote
  rw [hq]
  dsimp only
  rw [if_neg (by simp [hum])]
  rw [if_neg (by simp [hm])]

/-- `meltPre` with no blank outputs passes when the quote is unpaid and the
amounts cover the requirements. -/
theorem meltPre_pass (env : Env) (L : LedgerK) (proofs : List Proof)
    (quote_id : String) (s : St) (q : MeltQuote)
    (hg : get_melt_quote env quote_id s = (.ok q, s))
    (hum : env.unit_method_ok q.unit q.method = true)
    (hst : q.state = MeltQuoteState.unpaid)
    (hT : ¬ sum_proofs proofs < q.amount + q.fee_reserve + env.get_fees_for_proofs proofs)
    (hF : ¬ sum_proofs proofs - q.amount - env.get_fees_for_proofs proofs < q.fee_reserve)
    (hPO : env.max_peg_out = 0)
    (hV : env.verify_inputs_and_outputs proofs = true) :
    meltPre env L proofs quote_id none s
      = (.ok (q, sum_proofs proofs - q.amount - env.get_fees_for_proofs proofs), s) := by
  unfold meltPre
  rw [hg]
  simp only [andThen]
  rw [if_neg (by simp [hum])]
  rw [if_neg (by simp [hst])]
  rw [if_neg hT, if_neg hF]
  rw [if_neg (by simp [hPO])]
  rw [if_neg (by simp [hV])]

/-- Claim C3 counterexample: on a melt with no internal match and a failing
backend, `pay_invoice` is called while the quote is still UNPAID (the recorded
call state is `unpaid`, not `pending`), and after the failure the quote is
still UNPAID in the database, not FAILED: the code performs neither the
PENDING nor the FAILED transition. -/
theorem c3_counterexample :
    (melt envW LW [proofM6] "mel1" none c3st).snd.calls = [MeltQuoteState.unpaid]
    ∧ MeltQuoteState.unpaid ≠ MeltQuoteState.pending
    ∧ ∃ s2, melt envW LW [proofM6] "mel1" none c3st
        = (.error (.lightning "Lightning payment unsuccessful"), s2)
      ∧ (lookupMeltQuote s2.db "mel1").map (fun q => q.state)
          = some MeltQuoteState.unpaid := by
  exact ⟨rfl, by decide, ⟨_, rfl, rfl⟩⟩

/-- Claim C3 (amended): for a melt that is not settled internally, the quote
is **not** transitioned to PENDING before `pay_invoice` - the backend is
called with the quote still in state UNPAID - and on backend failure the quote
is **not** transitioned to FAILED: `melt` raises a Lightning error and leaves
the quote row unchanged (state UNPAID), releasing only the pending proofs. -/
theorem c3_melt_stays_unpaid_on_backend_failure (env : Env) (L : LedgerK)
    (proofs : List Proof) (quote_id : String) (s : St) (q : MeltQuote)
    (hq : lookupMeltQuote s.db quote_id = some q)
    (hum : env.unit_method_ok q.unit q.method = true)
    (hqp : q.paid = false)
    (hst : q.state = MeltQuoteState.unpaid)
    (hqm : lookupMintQuoteByRequest s.db q.request = none)
    (hstatus : (env.payment_status q.checking_id).paid = false)
    (hT : ¬ sum_proofs proofs < q.amount + q.fee_reserve + env.get_fees_for_proofs proofs)
    (hF : ¬ sum_proofs proofs - q.amount - env.get_fees_for_proofs proofs < q.fee_reserve)
    (hPO : env.max_peg_out = 0)
    (hV : env.verify_inputs_and_outputs proofs = true)
    (hfresh : (hasDup (proofYs env proofs)
        || (proofYs env proofs).any (fun y => (pendingYs s.db).contains y)) = false)
    (hpay : (env.pay_invoice q (q.fee_reserve * 1000)).ok = false) :
    ∃ s2, melt env L proofs quote_id none s
        = (.error (.lightning "Lightning payment unsuccessful"), s2)
      ∧ s2.calls = s.calls ++ [MeltQuoteState.unpaid]
      ∧ lookupMeltQuote s2.db quote_id = some q := by
  have hg := get_melt_quote_no_match_unpaid env quote_id s q hq hum hqp hqm hstatus
  have hpre := meltPre_pass env L proofs quote_id s q hg hum hst hT hF hPO hV
  have hsetp := setProofsPending_pass env proofs (some q.quote) s hfresh
  set s1 := runTxn s ((proofYs env proofs).map
    (fun y => DbOp.setPending { y := y, quote_id := some q.quote })) with hs1def
  have hmemOps : ∀ op ∈ (proofYs env proofs).map
      (fun y => DbOp.setPending { y := y, quote_id := some q.quote }),
      opKind op ≠ 0 ∧ opKind op ≠ 1 := by
    intro op hop
    simp only [List.mem_map] at hop
    obtain ⟨y, _, rfl⟩ := hop
    exact ⟨by simp [opKind], by simp [opKind]⟩
  have hmqs : s1.db.mint_quotes = s.db.mint_quotes :=
    applyTxn_no_mintQuote _ _ (fun op hop => (hmemOps op hop).1)
  have hmq2 : lookupMintQuoteByRequest s1.db q.request = none := by
    rw [lookupMintQuoteByRequest_congr _ s.db _ hmqs]
    exact hqm
  have hsettle := settle_no_match env q s1 hmq2
  have hpays := meltPayStep_fail env q s1 hqp hst hpay
  have hmtfull : meltTry env L q proofs none
      (sum_proofs proofs - q.amount - env.get_fees_for_proofs proofs) s1
      = (.error (.lightning "Lightning payment unsuccessful"),
         { s1 with calls := s1.calls ++ [q.state] }) := by
    unfold meltTry
    rw [hsettle]
    simp only [andThen]
    rw [hpays]
  refine ⟨unsetProofsPending env proofs { s1 with calls := s1.calls ++ [q.state] },
    ?_, ?_, ?_⟩
  · unfold melt
    rw [hpre]
    simp only [andThen]
    rw [hsetp]
    simp only [andThen]
    rw [hmtfull]
  · have hc := (unsetProofsPending_frame env proofs
      { s1 with calls := s1.calls ++ [q.state] }).2.2.2.1
    rw [hc]
    show s1.calls ++ [q.state] = s.calls ++ [MeltQuoteState.unpaid]
    rw [hst]
    rfl
  · have hm := (unsetProofsPending_frame env proofs
      { s1 with calls := s1.calls ++ [q.state] }).2.2.1
    have hchain : (unsetProofsPending env proofs
        { s1 with calls := s1.calls ++ [q.state] }).db.melt_quotes
        = s.db.melt_quotes := by
      rw [hm]
      exact applyTxn_no_meltQuote _ _ (fun op hop => (hmemOps op hop).2)
    rw [lookupMeltQuote_congr _ s.db quote_id hchain]
    exact hq

/-- Witness for the amended C3 at a concrete input. -/
theorem c3_melt_stays_unpaid_witness :
    ∃ s2, melt envW LW [proofM6] "mel1" none c3st
        = (.error (.lightning "Lightning payment unsuccessful"), s2)
      ∧ s2.calls = c3st.calls ++ [MeltQuoteState.unpaid]
      ∧ lookupMeltQuote s2.db "mel1" = some meltQX :=
  c3_melt_stays_unpaid_on_backend_failure envW LW [proofM6] "mel1" c3st meltQX
    rfl rfl rfl rfl rfl rfl (by decide) (by decide) rfl rfl rfl rfl

/-- Updating a row by key makes the subsequent lookup return the new row. -/
theorem find_update_list {α : Type} (key : α → String) (qid : String) (q2 : α)
    (hq2 : key q2 = qid) : ∀ (l : List α) (q0 : α),
    l.find? (fun r => decide (key r = qid)) = some q0 →
    (l.map (fun r => if key r = key q2 then q2 else r)).find?
        (fun r => decide (key r = qid)) = some q2
  | [], q0, h => by simp at h
  | r :: rs, q0, h => by
    rw [List.map_cons]
    by_cases hr : key r = qid
    · rw [if_pos (by rw [hq2]; exact hr)]
      rw [List.find?_cons_of_pos _ (by simp [hq2])]
    · rw [if_neg (by rw [hq2]; exact hr)]
      rw [List.find?_cons_of_neg _ (by simp [hr])]
      rw [List.find?_cons_of_neg _ (by simp [hr])] at h
      exact find_update_list key qid q2 hq2 rs q0 h

/-- All the internal-settlement checks pass on matching, unpaid quotes with a
decodable invoice. -/
theorem settleChecks_none (env : Env) (q : MeltQuote) (m : MintQuote)
    (hqp : q.paid = false) (hst : q.state = MeltQuoteState.unpaid)
    (inv : Bolt11Invoice) (hdec : env.decode q.request = some inv)
    (a : Int) (ha : inv.amount_msat = some a) (hane : a ≠ 0)
    (hamt : m.amount = q.amount) (hreq : m.request = q.request)
    (hunit : m.unit = q.unit) (hmeth : m.method = q.method)
    (hmp : m.paid = false) (hmi : m.issued = false)
    (hms : m.state = MintQuoteState.unpaid) :
    settleChecks env q m = none := by
  unfold settleChecks
  rw [if_neg (by simp [hqp])]
  rw [if_neg (by simp [hst])]
  rw [hdec]
  dsimp only
  rw [if_neg (by simp [ha, hane])]
  rw [if_neg (by simp [hamt])]
  rw [if_neg (by simp [hreq])]
  rw [if_neg (by simp [hunit])]
  rw [if_neg (by simp [hmeth])]
  rw [if_neg (by simp [hmp])]
  rw [if_neg (by simp [hmi])]
  rw [if_neg (by simp [hms])]

/-- The melt quote as written by internal settlement: paid, `fee_paid = 0`,
`paid_time = now`. -/
def settledMeltQuote (env : Env) (q : MeltQuote) : MeltQuote :=
  { q with fee_paid := 0, paid := true, state := MeltQuoteState.paid,
           paid_time := some env.now }

/-- The mint quote as written by internal settlement: paid with the same
`paid_time`. -/
def settledMintQuote (env : Env) (m : MintQuote) : MintQuote :=
  { m with paid := true, state := MintQuoteState.paid, paid_time := some env.now }

/-- Internal settlement on a matching mint quote with passing checks marks
both quotes paid in one transaction. -/
theorem settle_match_pass (env : Env) (q : MeltQuote) (m : MintQuote) (s : St)
    (hm : lookupMintQuoteByRequest s.db q.request = some m)
    (hchk : settleChecks env q m = none) :
    melt_mint_settle_internally env q s
      = (.ok (settledMeltQuote env q),
         runTxn s [.updateMeltQuote (settledMeltQuote env q),
                   .updateMintQuote (settledMintQuote env m)]) := by
  unfold melt_mint_settle_internally
  rw [hm]
  dsimp only
  rw [hchk]
  rfl

/-- The payment step is skipped on a quote already marked paid. -/
theorem meltPayStep_skip (env : Env) (mq : MeltQuote) (s : St)
    (h : ¬(mq.paid = false ∧ mq.state = MeltQuoteState.unpaid)) :
    meltPayStep env mq s = (.ok mq, s) := by
  unfold meltPayStep
  rw [if_neg h]

/-- `meltFinalize` with no blank outputs: invalidate the proofs, attach an
empty change list and store the quote. -/
theorem meltFinalize_none (env : Env) (L : LedgerK) (mq : MeltQuote)
    (proofs : List Proof) (frp : Int) (s : St) :
    meltFinalize env L mq proofs none frp s
      = (.ok { mq with change := [] },
         runTxn (runTxn s (invalidateProofsOps env proofs (some mq.quote)))
           [.updateMeltQuote { mq with change := [] }]) := rfl

/-- A melt quote sharing its request with a mint quote. -/
def meltQW : MeltQuote :=
  { quote := "mel2", method := "bolt11", request := "lnbc1", checking_id := "chk2",
    unit := "sat", amount := 5, fee_reserve := 1, paid := false,
    state := MeltQuoteState.unpaid }

/-- An unpaid mint quote over the same request and amount as `meltQW`. -/
def mintQW2 : MintQuote :=
  { quote := "mq3", method := "bolt11", request := "lnbc1", checking_id := "chk3",
    unit := "sat", amount := 5, issued := false, paid := false,
    state := MintQuoteState.unpaid }

/-- The same mint quote with a mismatching amount. -/
def mintQBad : MintQuote := { mintQW2 with amount := 10 }

/-- Database for the internal-settlement run. -/
def c5db : DB :=
  { mint_quotes := [mintQW2], melt_quotes := [meltQW], promises := [],
    proofs_used := [], proofs_pending := [] }

/-- Initial state for the internal-settlement run. -/
def c5st : St := { db := c5db, txns := [], calls := [], locks := [] }

/-- Database whose matching mint quote has a different amount. -/
def c5badDb : DB := { c5db with mint_quotes := [mintQBad] }

/-- Initial state for the amount-mismatch run. -/
def c5badSt : St := { db := c5badDb, txns := [], calls := [], locks := [] }

/-- Claim C5 counterexample: a melt quote and an UNPAID mint quote share the
same normalized request, yet `melt` does **not** settle internally - the code
additionally requires equal amounts (`ledger.py:855`) and raises "amounts do
not match", leaving the mint quote UNPAID rather than PAID. -/
theorem c5_counterexample :
    meltQW.request = mintQBad.request
    ∧ mintQBad.state = MintQuoteState.unpaid
    ∧ (melt envW LW [proofM6] "mel2" none c5badSt).fst
        = .error (.transaction "amounts do not match")
    ∧ (lookupMintQuote (melt envW LW [proofM6] "mel2" none c5badSt).snd.db "mq3").map
        (fun m => m.state) = some MintQuoteState.unpaid := ⟨rfl, rfl, rfl, rfl⟩

/-- Witness for C7 at a concrete successful melt (the internal settlement
run): the returned conditions hold for the loaded quote. -/
theorem c7_melt_balance_checks_witness :
    ∃ q, lookupMeltQuote c5st.db "mel2" = some q
      ∧ q.state = MeltQuoteState.unpaid
      ∧ sum_proofs [proofM6] ≥ q.amount + q.fee_reserve + envW.get_fees_for_proofs [proofM6]
      ∧ sum_proofs [proofM6] - q.amount - envW.get_fees_for_proofs [proofM6]
          ≥ q.fee_reserve :=
  c7_melt_balance_checks envW LW [proofM6] "mel2" none c5st _ _ rfl

/-- Mint-quote lookup by id depends on the mint-quote table only. -/
theorem lookupMintQuote_congr (db1 db2 : DB) (qid : String)
    (h : db1.mint_quotes = db2.mint_quotes) :
    lookupMintQuote db1 qid = lookupMintQuote db2 qid := by
  unfold lookupMintQuote
  rw [h]

/-- Claim C5 (amended): if a melt quote and a mint quote share the same
normalized payment request, the mint quote is UNPAID and not flagged paid or
issued, and - as the code additionally checks before settling - the two
quotes have equal amount, unit and method and the request decodes to an
invoice with a non-zero amount, then `melt` settles internally: both quotes
end in state PAID with the identical `paid_time = now`, the melt quote's
`fee_paid` is 0, both quote updates are written in one database transaction,
and the backend `pay_invoice` is never called. -/
theorem c5_internal_settlement (env : Env) (L : LedgerK) (proofs : List Proof)
    (quote_id : String) (s : St) (q : MeltQuote) (m : MintQuote)
    (hq : lookupMeltQuote s.db quote_id = some q)
    (hm : lookupMintQuoteByRequest s.db q.request = some m)
    (hmq : lookupMintQuote s.db m.quote = some m)
    (hum : env.unit_method_ok q.unit q.method = true)
    (hqp : q.paid = false)
    (hst : q.state = MeltQuoteState.unpaid)
    (hmp : m.paid = false) (hmi : m.issued = false)
    (hms : m.state = MintQuoteState.unpaid)
    (hamt : m.amount = q.amount) (hunit : m.unit = q.unit) (hmeth : m.method = q.method)
    (inv : Bolt11Invoice) (hdec : env.decode q.request = some inv)
    (a : Int) (ha : inv.amount_msat = some a) (hane : a ≠ 0)
    (hT : ¬ sum_proofs proofs < q.amount + q.fee_reserve + env.get_fees_for_proofs proofs)
    (hF : ¬ sum_proofs proofs - q.amount - env.get_fees_for_proofs proofs < q.fee_reserve)
    (hPO : env.max_peg_out = 0)
    (hV : env.verify_inputs_and_outputs proofs = true)
    (hfresh : (hasDup (proofYs env proofs)
        || (proofYs env proofs).any (fun y => (pendingYs s.db).contains y)) = false) :
    ∃ s2, melt env L proofs quote_id none s
        = (.ok { settledMeltQuote env q with change := [] }, s2)
      ∧ s2.calls = s.calls
      ∧ lookupMeltQuote s2.db quote_id
          = some { settledMeltQuote env q with change := [] }
      ∧ lookupMintQuote s2.db m.quote = some (settledMintQuote env m)
      ∧ (settledMeltQuote env q).state = MeltQuoteState.paid
      ∧ (settledMeltQuote env q).fee_paid = 0
      ∧ (settledMeltQuote env q).paid_time = some env.now
      ∧ (settledMintQuote env m).state = MintQuoteState.paid
      ∧ (settledMintQuote env m).paid_time = some env.now
      ∧ [DbOp.updateMeltQuote (settledMeltQuote env q),
         DbOp.updateMintQuote (settledMintQuote env m)] ∈ s2.txns := by
  have hqid : q.quote = quote_id := by
    have := List.find?_some hq
    simpa using this
  have hreq : m.request = q.request := by
    have := List.find?_some hm
    simpa using this
  have hg := get_melt_quote_with_match env quote_id s q m hq hum hm
  have hpre := meltPre_pass env L proofs quote_id s q hg hum hst hT hF hPO hV
  have hsetp := setProofsPending_pass env proofs (some q.quote) s hfresh
  set ops0 := (proofYs env proofs).map
    (fun y => DbOp.setPending { y := y, quote_id := some q.quote }) with hops0
  set s1 := runTxn s ops0 with hs1
  have hmemOps0 : ∀ op ∈ ops0, opKind op ≠ 0 ∧ opKind op ≠ 1 := by
    intro op hop
    rw [hops0] at hop
    simp only [List.mem_map] at hop
    obtain ⟨y, _, rfl⟩ := hop
    exact ⟨by simp [opKind], by simp [opKind]⟩
  have hs1mint : s1.db.mint_quotes = s.db.mint_quotes :=
    applyTxn_no_mintQuote _ _ (fun op hop => (hmemOps0 op hop).1)
  have hs1melt : s1.db.melt_quotes = s.db.melt_quotes :=
    applyTxn_no_meltQuote _ _ (fun op hop => (hmemOps0 op hop).2)
  have hm1 : lookupMintQuoteByRequest s1.db q.request = some m := by
    rw [lookupMintQuoteByRequest_congr _ s.db _ hs1mint]
    exact hm
  have hchk := settleChecks_none env q m hqp hst inv hdec a ha hane hamt hreq
    hunit hmeth hmp hmi hms
  have hsettle := settle_match_pass env q m s1 hm1 hchk
  set mq2 := settledMeltQuote env q with hmq2d
  set m2 := settledMintQuote env m with hm2d
  set s2a := runTxn s1 [DbOp.updateMeltQuote mq2, DbOp.updateMintQuote m2] with hs2a
  have hskip : meltPayStep env mq2 s2a = (.ok mq2, s2a) :=
    meltPayStep_skip env mq2 s2a (by rw [hmq2d]; simp [settledMeltQuote])
  set mq3 : MeltQuote := { mq2 with change := [] } with hmq3d
  set s2b := runTxn s2a (invalidateProofsOps env proofs (some mq2.quote)) with hs2b
  set s2c := runTxn s2b [DbOp.updateMeltQuote mq3] with hs2c
  have hfin : meltFinalize env L mq2 proofs none
      (sum_proofs proofs - q.amount - env.get_fees_for_proofs proofs) s2a
      = (.ok mq3, s2c) :=
    meltFinalize_none env L mq2 proofs _ s2a
  have hmt : meltTry env L q proofs none
      (sum_proofs proofs - q.amount - env.get_fees_for_proofs proofs) s1
      = (.ok mq3, s2c) := by
    unfold meltTry
    rw [hsettle]
    simp only [andThen]
    rw [hskip]
    simp only [andThen]
    exact hfin
  have hmelt : melt env L proofs quote_id none s
      = (.ok mq3, unsetProofsPending env proofs s2c) := by
    unfold melt
    rw [hpre]
    simp only [andThen]
    rw [hsetp]
    simp only [andThen]
    rw [hmt]
  refine ⟨unsetProofsPending env proofs s2c, hmelt, rfl, ?_, ?_, rfl, rfl, rfl, rfl, rfl, ?_⟩
  · have h1 : lookupMeltQuote s1.db quote_id = some q := by
      rw [lookupMeltQuote_congr _ s.db _ hs1melt]
      exact hq
    have hmq2quote : mq2.quote = quote_id := by
      rw [hmq2d]
      show q.quote = quote_id
      exact hqid
    have h2 : lookupMeltQuote s2a.db quote_id = some mq2 := by
      show lookupMeltQuote
        (applyOp (applyOp s1.db (DbOp.updateMeltQuote mq2)) (DbOp.updateMintQuote m2))
        quote_id = some mq2
      rw [lookupMeltQuote_congr
        (applyOp (applyOp s1.db (DbOp.updateMeltQuote mq2)) (DbOp.updateMintQuote m2))
        (applyOp s1.db (DbOp.updateMeltQuote mq2)) quote_id rfl]
      exact find_update_list (fun r : MeltQuote => r.quote) quote_id mq2 hmq2quote
        s1.db.melt_quotes q h1
    have h3 : lookupMeltQuote s2b.db quote_id = some mq2 := by
      have hinvmelt : s2b.db.melt_quotes = s2a.db.melt_quotes :=
        applyTxn_no_meltQuote _ _ (by
          intro op hop
          simp only [invalidateProofsOps, List.mem_map] at hop
          obtain ⟨p, _, rfl⟩ := hop
          simp [opKind])
      rw [lookupMeltQuote_congr _ s2a.db _ hinvmelt]
      exact h2
    have h4 : lookupMeltQuote s2c.db quote_id = some mq3 := by
      show lookupMeltQuote (applyOp s2b.db (DbOp.updateMeltQuote mq3)) quote_id = some mq3
      exact find_update_list (fun r : MeltQuote => r.quote) quote_id mq3
        (by rw [hmq3d]; show mq2.quote = quote_id; exact hmq2quote)
        s2b.db.melt_quotes mq2 h3
    have h5 : (unsetProofsPending env proofs s2c).db.melt_quotes = s2c.db.melt_quotes :=
      (unsetProofsPending_frame env proofs s2c).2.2.1
    rw [lookupMeltQuote_congr _ s2c.db _ h5]
    exact h4
  · have hm2quote : m2.quote = m.quote := by
      rw [hm2d]
      rfl
    have g1 : lookupMintQuote s1.db m.quote = some m := by
      rw [lookupMintQuote_congr _ s.db _ hs1mint]
      exact hmq
    have g2 : lookupMintQuote s2a.db m.quote = some m2 := by
      show lookupMintQuote
        (applyOp (applyOp s1.db (DbOp.updateMeltQuote mq2)) (DbOp.updateMintQuote m2))
        m.quote = some m2
      have g1a : lookupMintQuote (applyOp s1.db (DbOp.updateMeltQuote mq2)) m.quote = some m := by
        rw [lookupMintQuote_congr (applyOp s1.db (DbOp.updateMeltQuote mq2)) s1.db m.quote rfl]
        exact g1
      exact find_update_list (fun r : MintQuote => r.quote) m.quote m2 hm2quote
        (applyOp s1.db (DbOp.updateMeltQuote mq2)).mint_quotes m g1a
    have g3 : lookupMintQuote s2b.db m.quote = some m2 := by
      have hinvmint : s2b.db.mint_quotes = s2a.db.mint_quotes :=
        applyTxn_no_mintQuote _ _ (by
          intro op hop
          simp only [invalidateProofsOps, List.mem_map] at hop
          obtain ⟨p, _, rfl⟩ := hop
          simp [opKind])
      rw [lookupMintQuote_congr _ s2a.db _ hinvmint]
      exact g2
    have g4 : lookupMintQuote s2c.db m.quote = some m2 := by
      rw [lookupMintQuote_congr s2c.db s2b.db m.quote rfl]
      exact g3
    have g5 : (unsetProofsPending env proofs s2c).db.mint_quotes = s2c.db.mint_quotes :=
      (unsetProofsPending_frame env proofs s2c).2.1
    rw [lookupMintQuote_congr _ s2c.db _ g5]
    exact g4
  · simp only [unsetProofsPending, runTxn, hs2c, hs2b, hs2a]
    simp [List.mem_append]

/-- Witness for the amended C5 at a concrete input: the internal settlement
run marks both quotes paid in one transaction without a backend call. -/
theorem c5_internal_settlement_witness :
    ∃ s2, melt envW LW [proofM6] "mel2" none c5st
        = (.ok { settledMeltQuote envW meltQW with change := [] }, s2)
      ∧ s2.calls = c5st.calls
      ∧ lookupMeltQuote s2.db "mel2"
          = some { settledMeltQuote envW meltQW with change := [] }
      ∧ lookupMintQuote s2.db mintQW2.quote = some (settledMintQuote envW mintQW2)
      ∧ (settledMeltQuote envW meltQW).state = MeltQuoteState.paid
      ∧ (settledMeltQuote envW meltQW).fee_paid = 0
      ∧ (settledMeltQuote envW meltQW).paid_time = some envW.now
      ∧ (settledMintQuote envW mintQW2).state = MintQuoteState.paid
      ∧ (settledMintQuote envW mintQW2).paid_time = some envW.now
      ∧ [DbOp.updateMeltQuote (settledMeltQuote envW meltQW),
         DbOp.updateMintQuote (settledMintQuote envW mintQW2)] ∈ s2.txns :=
  c5_internal_settlement envW LW [proofM6] "mel2" c5st meltQW mintQW2
    rfl rfl rfl rfl rfl rfl rfl rfl rfl rfl rfl rfl
    { amount_msat := some 1000000 } rfl 1000000 rfl (by decide)
    (by decide) (by decide) rfl rfl rfl
